import Mathlib

/-!
# Helm render-set reconciliation (zadig, `environment/service/renderset.go`)

A shallow embedding of the values-resolution and render-set reconciliation code:
`validateYamlContent`, `generateValuesYaml`, `GetRenderCharts`, `GetDefaultValues`,
`CreateOrUpdateRenderset`, `CreateOrUpdateChartValues` and `ensureHelmRenderSetArgs`.

Go strings and byte slices are both modelled by `String` (the conversions
`[]byte(s)` and `string(b)` copy the bytes and are the identity here).  Go pointers that the
code mutates in place become explicit state passing: a function returns the new content of
what it was handed.  A run-time panic (nil dereference, failed type assertion) is an error
value of its own.
-/

set_option autoImplicit false

namespace Renderset

/-! ## Data model -/

/-- The repository coordinates of a `GitRepo` source (`commonservice.RepoConfig`), with the fields
the source reads. -/
structure RepoConfig where
  CodehostID : Int
  Owner : String
  Repo : String
  Branch : String
  ValuesPaths : List String
  deriving DecidableEq, Repr

/-- The argument record of `fsservice.DownloadFileFromSource`, as built at lines 137-143. -/
structure DownloadFromSourceArgs where
  CodehostID : Int
  Owner : String
  Repo : String
  Path : String
  Branch : String
  deriving DecidableEq, Repr

/-- The `commonservice.YamlData` record: where override text comes from, and the text. -/
structure YamlData where
  YamlSource : String
  GitRepoConfig : Option RepoConfig
  ValuesYAML : String
  deriving DecidableEq, Repr

/-- Modelled from the spec: the constant `setting.ValuesYamlSourceFreeEdit` is not declared in the
source at hand; it tags the `FreeEdit` kind of source (literal YAML text). -/
def ValuesYamlSourceFreeEdit : String := "freeEdit"

/-- Modelled from the spec: the constant `setting.ValuesYamlSourceGitRepo` is not declared in the
source at hand; it tags the `GitRepo` kind of source (files of a repository). -/
def ValuesYamlSourceGitRepo : String := "gitRepo"

/-- Errors the code builds.  `text` is `errors.New`; the other constructors keep the arguments of
the format string instead of the formatted text. -/
inductive Error where
  /-- The error `errors.New(msg)`. -/
  | text (msg : String)
  /-- Line 145: "fail to download file from git, err: %s, path: %s, repo: %v". -/
  | downloadFailed (cause path : String) (repo : RepoConfig)
  /-- Line 164: "failed to merge yaml files, repo: %v". -/
  | mergeFailed (repo : RepoConfig)
  /-- Lines 181 and 271: "failed to get service %s". -/
  | getServiceFailed (cause : String)
  /-- Lines 209 and 291: "failed to get renderset %s". -/
  | getRendersetFailed (cause : String)
  /-- Line 344: "get next render set revision error: %v". -/
  | nextSeqFailed (cause : String)
  /-- A failure reported by the document store. -/
  | store (cause : String)
  /-- The wrapped error `e.ErrCreateRenderSet.AddDesc(desc)`. -/
  | ErrCreateRenderSet (desc : Error)
  /-- A run-time panic. -/
  | panic (msg : String)
  deriving DecidableEq, Repr

/-- The chart metadata of a catalog service (`serviceObj.HelmChart`), with the fields the source
reads. -/
structure HelmChart where
  ValuesYaml : String
  Version : String
  deriving DecidableEq, Repr

/-- A service of the catalog (`commonmodels.Service`), with the field the source reads. -/
structure Service where
  HelmChart : Option HelmChart
  deriving DecidableEq, Repr

/-- The query record `commonrepo.ServiceFindOption`, as built at lines 174-178 and 264-268 (its
field `Type` is `DeployType` here). -/
structure ServiceFindOption where
  ProductName : String
  ServiceName : String
  DeployType : String
  deriving DecidableEq, Repr

/-- Modelled from the spec: the constant `setting.HelmDeployType` is not declared in the source at
hand; the catalog is queried with `type=Helm`. -/
def HelmDeployType : String := "helm"

/-- One entry of `chartInfos` (`template.RenderChart`).  The source reads and writes
`ServiceName`, `ChartVersion` and `ValuesYaml`; `Source` is the override the entry was last filled
from, with its source metadata.

Modelled from the spec: the type declaration is not in the source at hand; a ChartOverride has
`serviceName`, `chartVersion`, `valuesYaml`, plus the source metadata (free-edit or remote-repo
provenance) of its override. -/
structure RenderChart where
  ServiceName : String
  ChartVersion : String
  ValuesYaml : String
  Source : Option YamlData
  deriving DecidableEq, Repr

/-- The zero value `new(template.RenderChart)`. -/
def RenderChart.new : RenderChart :=
  { ServiceName := "", ChartVersion := "", ValuesYaml := "", Source := none }

/-- The per-service change `commonservice.RenderChartArg`, with the fields the source reads
(`EnvName`, `ServiceName`, `YamlData`) and `ChartVersion`. -/
structure RenderChartArg where
  EnvName : String
  ServiceName : String
  ChartVersion : String
  YamlData : Option YamlData
  deriving DecidableEq, Repr

/-- The zero value `new(commonservice.RenderChartArg)`. -/
def RenderChartArg.new : RenderChartArg :=
  { EnvName := "", ServiceName := "", ChartVersion := "", YamlData := none }

/-- The collaborators that the code calls and that are pure with respect to the store: the YAML
parser, the file download transport, the fragment merger, the naming function, the service
catalog, the way an override is laid over the values of an entry, and the loading of an entry into
a result.  They are parameters of the embedding. -/
structure Env where
  /-- Whether `yaml.Unmarshal([]byte(s), &tMap)` returns no error for the text `s`. -/
  yamlUnmarshal : String → Bool
  /-- The call `fsservice.DownloadFileFromSource`: the file content, or the error text. -/
  DownloadFileFromSource : DownloadFromSourceArgs → Except String String
  /-- The call `yamlutil.Merge`: the merged document, or the error text. -/
  Merge : List String → Except String String
  /-- The call `commonservice.GetProductEnvNamespace(envName, productName, namespace)`. -/
  GetProductEnvNamespace : String → String → String → String
  /-- The call `commonrepo.NewServiceColl().Find(opt)`: the service (`none` is a nil result), or
  the error text. -/
  FindService : ServiceFindOption → Except String (Option Service)
  /-- How `FillRenderChartModel` applies an override on top of the `ValuesYaml` of an entry: the
  new `ValuesYaml`, from the override of the change and the `ValuesYaml` underneath. -/
  applyOverride : Option YamlData → String → String
  /-- The call `rcaObj.LoadFromRenderChartModel(singleChart)` of line 77: the content of `*rcaObj`
  after the call, from its content before and the entry. -/
  LoadFromRenderChartModel : RenderChartArg → RenderChart → RenderChartArg

/-! ## `validateYamlContent` and `generateValuesYaml` -/

/-- Lines 105-113: the text is decoded into a generic mapping; any decoding error becomes the
error "yaml content illegal". -/
def validateYamlContent (env : Env) (yamlContent : String) : Option Error :=
  if env.yamlUnmarshal yamlContent then none else some (.text "yaml content illegal")

/-- The state the fetch goroutines share (lines 125-130): the variable `err` and the
`fileContentMap` (a `sync.Map`, here an association list whose first binding of a key is the
current one). -/
structure FetchState where
  err : Option Error
  fileContentMap : List (Nat × String)
  deriving DecidableEq, Repr

/-- The download request that the goroutine for `path` sends (lines 137-143). -/
def downloadArgs (cfg : RepoConfig) (path : String) : DownloadFromSourceArgs :=
  { CodehostID := cfg.CodehostID, Owner := cfg.Owner, Repo := cfg.Repo, Path := path,
    Branch := cfg.Branch }

/-- The body of one fetch goroutine (lines 134-149), for the task `(index, path)`: download the
file; on failure assign the shared `err`, otherwise store the content under `index`. -/
def fetchTask (env : Env) (cfg : RepoConfig) (st : FetchState) (index : Nat) (path : String) :
    FetchState :=
  match env.DownloadFileFromSource (downloadArgs cfg path) with
  | .error err1 => { st with err := some (.downloadFailed err1 path cfg) }
  | .ok fileContent => { st with fileContentMap := (index, fileContent) :: st.fileContentMap }

/-- The completion of the goroutine started for position `index` of `ValuesPaths` (an index
outside the list names no goroutine). -/
def fetchStep (env : Env) (cfg : RepoConfig) (st : FetchState) (index : Nat) : FetchState :=
  match cfg.ValuesPaths[index]? with
  | some path => fetchTask env cfg st index path
  | none => st

/-- Lines 132-151: one goroutine per entry of `ValuesPaths`, then `wg.Wait()`.  The goroutines
touch the shared state once each, when they complete; `order` lists the task indices in the order
in which they complete (in a real run a permutation of `0, ..., n-1`). -/
def runFetches (env : Env) (cfg : RepoConfig) (order : List Nat) : FetchState :=
  order.foldl (fetchStep env cfg) { err := none, fileContentMap := [] }

/-- The values under the given keys, in the order of the keys; `none` at the first key without a
value. -/
def loadKeys (fileContentMap : List (Nat × String)) : List Nat → Option (List String)
  | [] => some []
  | i :: rest =>
    match fileContentMap.lookup i with
    | none => none
    | some content => (loadKeys fileContentMap rest).map (fun l => content :: l)

/-- Lines 157-161: `allValueYamls[i]` is what `fileContentMap.Load(i)` holds, for `i` from `0` to
`n-1`; a missing key makes the type assertion `contentObj.([]byte)` panic (`none` here). -/
def loadFragments (fileContentMap : List (Nat × String)) (n : Nat) : Option (List String) :=
  loadKeys fileContentMap (List.range n)

/-- What a call of `generateValuesYaml` leaves behind: the returned error (`none` is `nil`), the
content of `*yamlData` after the call, and the fragment list that was handed to `yamlutil.Merge`
(`none` when the merge step was not reached). -/
structure GenResult where
  err : Option Error
  yamlData : Option YamlData
  mergeInput : Option (List String)
  deriving DecidableEq, Repr

/-- Lines 115-169.  `order` is the completion order of the fetch goroutines. -/
def generateValuesYaml (env : Env) (order : List Nat) (yamlData : Option YamlData) : GenResult :=
  match yamlData with
  | none => { err := none, yamlData := none, mergeInput := none }
  | some yd =>
    if yd.YamlSource = ValuesYamlSourceFreeEdit then
      { err := validateYamlContent env yd.ValuesYAML, yamlData := some yd, mergeInput := none }
    else if yd.YamlSource = ValuesYamlSourceGitRepo then
      match yd.GitRepoConfig with
      | none => { err := some (.text "invalid repo config"), yamlData := some yd,
                  mergeInput := none }
      | some cfg =>
        let st := runFetches env cfg order
        match st.err with
        | some err => { err := some err, yamlData := some yd, mergeInput := none }
        | none =>
          match loadFragments st.fileContentMap cfg.ValuesPaths.length with
          | none => { err := some (.panic "interface conversion: interface is nil, not []uint8"),
                      yamlData := some yd, mergeInput := none }
          | some allValueYamls =>
            match env.Merge allValueYamls with
            | .error _ => { err := some (.mergeFailed cfg), yamlData := some yd,
                            mergeInput := some allValueYamls }
            | .ok allValues => { err := none, yamlData := some { yd with ValuesYAML := allValues },
                                 mergeInput := some allValueYamls }
    else { err := none, yamlData := some yd, mergeInput := none }

/-! ## Render sets, chart entries and the document store -/

/-- Modelled from the spec: the method `RenderChartArg.FillRenderChartModel(chart, version)` is not
in the source at hand.  It overwrites the entry's fields from the change (4.3, step 5): the entry
takes the change's service name and the version handed in (its own one when the entry exists, the
catalog's for a new entry), the override is applied on top of the entry's `ValuesYaml` (the
seeded catalog default for a new entry), and the entry records the override with its source
metadata. -/
def RenderChartArg.FillRenderChartModel (args : RenderChartArg) (env : Env) (chart : RenderChart)
    (version : String) : RenderChart :=
  { ServiceName := args.ServiceName, ChartVersion := version,
    ValuesYaml := env.applyOverride args.YamlData chart.ValuesYaml, Source := args.YamlData }

/-- The request body `commonservice.RendersetArg`: it embeds `*RenderChartArg` (the source reads
`args.RenderChartArg`, `args.ServiceName` and `args.FillRenderChartModel` on the same value) and
carries the optional environment default. -/
structure RendersetArg where
  DefaultValues : Option YamlData
  RenderChartArg : Option RenderChartArg
  deriving DecidableEq, Repr

/-- The document `commonmodels.RenderSet`, with the fields the source reads and writes. -/
structure RenderSet where
  Name : String
  Revision : Int
  EnvName : String
  ProductTmpl : String
  UpdateBy : String
  IsDefault : Bool
  DefaultValues : String
  ChartInfos : List RenderChart
  deriving DecidableEq, Repr

/-- Modelled from the spec: the document store (`commonrepo.NewRenderSetColl()`,
`commonrepo.NewCounterColl()`) is not in the source at hand.  It holds the inserted documents,
newest first and never mutated, one integer counter per key, and the failure (if any) with which
each of its three operations answers. -/
structure Store where
  renderSets : List RenderSet
  counters : List (String × Int)
  findFault : Option String
  counterFault : Option String
  insertFault : Option String
  deriving DecidableEq, Repr

/-- Modelled from the spec: `FindRenderSet(name) -> (Renderset | not-found)` is not in the source
at hand; it answers with the current (latest written) document of that name. -/
def Store.FindRenderSet (s : Store) (name : String) : Except String (Option RenderSet) :=
  match s.findFault with
  | some cause => .error cause
  | none => .ok (s.renderSets.find? (fun d => d.Name = name))

/-- The current value of a counter; a counter that was never used stands at `0`. -/
def Store.counter (s : Store) (key : String) : Int :=
  (s.counters.lookup key).getD 0

/-- Modelled from the spec: `NextSequence(counterKey) -> int` is not in the source at hand; it is
an atomically incrementing counter keyed by name: it answers with the successor of the counter's
value and records it. -/
def Store.GetNextSeq (s : Store) (key : String) : Except String (Int × Store) :=
  match s.counterFault with
  | some cause => .error cause
  | none => .ok (s.counter key + 1, { s with counters := (key, s.counter key + 1) :: s.counters })

/-- Modelled from the spec: `InsertRenderSet(doc)` is not in the source at hand; it adds the
document as a new record and leaves the earlier ones as they are. -/
def Store.Create (s : Store) (doc : RenderSet) : Except String Store :=
  match s.insertFault with
  | some cause => .error cause
  | none => .ok { s with renderSets := doc :: s.renderSets }

/-- What a call that works on the store leaves behind: the returned error (`none` is `nil`) and
the store after the call. -/
structure Outcome where
  err : Option Error
  store : Store
  deriving DecidableEq, Repr

/-! ## Persistence and revisioning -/

/-- What `ensureHelmRenderSetArgs` leaves behind: the returned error, the content of `*args` after
the call, and the store after the call. -/
structure EnsureResult where
  err : Option Error
  args : Option RenderSet
  store : Store
  deriving DecidableEq, Repr

/-- Lines 333-349. -/
def ensureHelmRenderSetArgs (s : Store) (args : Option RenderSet) : EnsureResult :=
  match args with
  | none => { err := some (.text "nil RenderSet"), args := none, store := s }
  | some doc =>
    if doc.Name.length = 0 then
      { err := some (.text "empty render set name"), args := some doc, store := s }
    else
      match s.GetNextSeq ("renderset:" ++ doc.Name) with
      | .error err => { err := some (.nextSeqFailed err), args := some doc, store := s }
      | .ok (rev, s1) => { err := none, args := some { doc with Revision := rev }, store := s1 }

/-- Modelled from the spec: `commonservice.CreateHelmRenderSet` is not in the source at hand.
Given the mutated in-memory document it validates the name and allocates the next revision
(`ensureHelmRenderSetArgs`), then inserts the document as a new record. -/
def CreateHelmRenderSet (s : Store) (args : RenderSet) : Outcome :=
  let r := ensureHelmRenderSetArgs s (some args)
  match r.err, r.args with
  | some err, _ => { err := some err, store := r.store }
  | none, none => { err := some (.panic "nil RenderSet"), store := r.store }
  | none, some doc =>
    match r.store.Create doc with
    | .error cause => { err := some (.store cause), store := r.store }
    | .ok s1 => { err := none, store := s1 }

/-! ## Read-side queries -/

/-- The pieces of a character sequence between its commas. -/
def splitComma : List Char → List (List Char)
  | [] => [[]]
  | c :: cs =>
    if c = ',' then [] :: splitComma cs
    else
      match splitComma cs with
      | [] => [[c]]
      | w :: ws => (c :: w) :: ws

/-- The call `strings.Split(s, ",")` of line 65. -/
def Split (s : String) : List String :=
  (splitComma s.toList).map String.mk

/-- Lines 59-82 of `GetRenderCharts`, for the document found: the entries that pass the
service-name filter, each loaded into a fresh `RenderChartArg` that gets the requested `envName`.
`sets.NewString(serverList...).Has(x)` is membership in `serverList`. -/
def renderChartsOf (env : Env) (rendersetObj : RenderSet) (envName serviceName : String) :
    List RenderChartArg :=
  let matchedRenderChartModels :=
    if serviceName.length = 0 then rendersetObj.ChartInfos
    else
      let serverList := Split serviceName
      rendersetObj.ChartInfos.filter
        (fun singleChart => decide (singleChart.ServiceName ∈ serverList))
  matchedRenderChartModels.map
    (fun singleChart =>
      { env.LoadFromRenderChartModel RenderChartArg.new singleChart with EnvName := envName })

/-- Lines 43-82.  A nil slice and an empty slice are both `[]`. -/
def GetRenderCharts (env : Env) (s : Store) (productName envName serviceName : String) :
    Except Error (List RenderChartArg) :=
  let renderSetName := env.GetProductEnvNamespace envName productName ""
  match s.FindRenderSet renderSetName with
  | .error err => .error (.store err)
  | .ok none => .ok []
  | .ok (some rendersetObj) => .ok (renderChartsOf env rendersetObj envName serviceName)

/-- Lines 84-102: the result is the `DefaultValues` field of a `DefaultValuesResp`. -/
def GetDefaultValues (env : Env) (s : Store) (productName envName : String) :
    Except Error String :=
  let renderSetName := env.GetProductEnvNamespace envName productName ""
  match s.FindRenderSet renderSetName with
  | .error err => .error (.store err)
  | .ok none => .ok ""
  | .ok (some rendersetObj) => .ok rendersetObj.DefaultValues

/-! ## Create or update -/

/-- The loop of lines 225-232 and 306-313: the first entry whose `ServiceName` is `serviceName` is
filled from `args` with its own `ChartVersion`, and the loop stops.  `none` when no entry has that
name (`targetChartInfo` stays nil). -/
def fillFirstMatch (env : Env) (args : RenderChartArg) (serviceName : String) :
    List RenderChart → Option (List RenderChart)
  | [] => none
  | singleChart :: rest =>
    if singleChart.ServiceName ≠ serviceName then
      (fillFirstMatch env args serviceName rest).map (fun l => singleChart :: l)
    else some (args.FillRenderChartModel env singleChart singleChart.ChartVersion :: rest)

/-- Lines 224-238 and 305-319: update the entry of the service, or append a new one seeded with
the catalog's `ValuesYaml` and filled with the catalog's `Version`. -/
def spliceChartInfos (env : Env) (args : RenderChartArg) (serviceName : String)
    (helmChart : HelmChart) (chartInfos : List RenderChart) : List RenderChart :=
  match fillFirstMatch env args serviceName chartInfos with
  | some l => l
  | none =>
    chartInfos ++
      [args.FillRenderChartModel env { RenderChart.new with ValuesYaml := helmChart.ValuesYaml }
        helmChart.Version]

/-- Lines 212-220 and 294-302: the document a call starts from when none is stored. -/
def freshRenderSet (renderSetName envName productName userName : String) : RenderSet :=
  { Name := renderSetName, Revision := 0, EnvName := envName, ProductTmpl := productName,
    UpdateBy := userName, IsDefault := false, DefaultValues := "", ChartInfos := [] }

/-- Lines 269-279 and 179-189: the catalog lookup and its three failures. -/
def findHelmChart (env : Env) (productName serviceName : String) : Except Error HelmChart :=
  match env.FindService
      { ProductName := productName, ServiceName := serviceName, DeployType := HelmDeployType } with
  | .error err => .error (.ErrCreateRenderSet (.getServiceFailed err))
  | .ok none => .error (.ErrCreateRenderSet (.text "service not found"))
  | .ok (some serviceObj) =>
    match serviceObj.HelmChart with
    | none => .error (.ErrCreateRenderSet (.text "missing helm chart info"))
    | some helmChart => .ok helmChart

/-- Lines 204-220 and 286-302: the current document of the derived name, or a fresh one. -/
def currentRenderSet (env : Env) (s : Store) (productName envName userName : String) :
    Except Error RenderSet :=
  let renderSetName := env.GetProductEnvNamespace envName productName ""
  match s.FindRenderSet renderSetName with
  | .error err => .error (.ErrCreateRenderSet (.getRendersetFailed err))
  | .ok (some curRenderset) => .ok curRenderset
  | .ok none => .ok (freshRenderSet renderSetName envName productName userName)

/-- Lines 249-257 and 322-330: persist, wrapping a failure. -/
def persist (s : Store) (curRenderset : RenderSet) : Outcome :=
  let r := CreateHelmRenderSet s curRenderset
  match r.err with
  | some err => { err := some (.ErrCreateRenderSet err), store := r.store }
  | none => r

/-- Lines 260-331.  `order` is the completion order of the fetch goroutines of the one call of
`generateValuesYaml`. -/
def CreateOrUpdateChartValues (env : Env) (order : List Nat) (s : Store)
    (productName envName : String) (args : RenderChartArg) (userName : String) : Outcome :=
  let serviceName := args.ServiceName
  match findHelmChart env productName serviceName with
  | .error err => { err := some err, store := s }
  | .ok helmChart =>
    let g := generateValuesYaml env order args.YamlData
    match g.err with
    | some err => { err := some (.ErrCreateRenderSet err), store := s }
    | none =>
      let args1 := { args with YamlData := g.yamlData }
      match currentRenderSet env s productName envName userName with
      | .error err => { err := some err, store := s }
      | .ok curRenderset =>
        persist s
          { curRenderset with
            ChartInfos :=
              spliceChartInfos env args1 serviceName helmChart curRenderset.ChartInfos }

/-- Lines 191-196: the per-service change is resolved when it carries a `YamlData` (the change
itself is present once line 172 has read through it). -/
def resolveChartValues (env : Env) (order : List Nat) (renderChartArg : RenderChartArg) :
    GenResult :=
  match renderChartArg.YamlData with
  | some yamlData => generateValuesYaml env order (some yamlData)
  | none => { err := none, yamlData := none, mergeInput := none }

/-- Lines 197-202: the environment default is resolved when it is supplied and its `YamlSource` is
not empty; otherwise it is left as supplied. -/
def resolveDefaultValues (env : Env) (orderDefault : List Nat) (defaultValues : Option YamlData) :
    GenResult :=
  match defaultValues with
  | some yamlData =>
    if yamlData.YamlSource ≠ "" then generateValuesYaml env orderDefault (some yamlData)
    else { err := none, yamlData := some yamlData, mergeInput := none }
  | none => { err := none, yamlData := none, mergeInput := none }

/-- Lines 242-246: the text written to `DefaultValues`, from `args.DefaultValues` as it is after
lines 197-202. -/
def writtenDefault (d : GenResult) : String :=
  match d.yamlData with
  | some defaultValues => defaultValues.ValuesYAML
  | none => ""

/-- Lines 171-258.  `args.ServiceName` at line 172 reads through the embedded pointer, so a call
without a per-service change panics there.  `order` and `orderDefault` are the completion orders
of the fetch goroutines of the two calls of `generateValuesYaml`. -/
def CreateOrUpdateRenderset (env : Env) (order orderDefault : List Nat) (s : Store)
    (productName envName : String) (args : RendersetArg) (userName : String) : Outcome :=
  match args.RenderChartArg with
  | none => { err := some (.panic "invalid memory address or nil pointer dereference"),
              store := s }
  | some renderChartArg =>
    let serviceName := renderChartArg.ServiceName
    match findHelmChart env productName serviceName with
    | .error err => { err := some err, store := s }
    | .ok helmChart =>
      let g := resolveChartValues env order renderChartArg
      match g.err with
      | some err => { err := some (.ErrCreateRenderSet err), store := s }
      | none =>
        let renderChartArg1 := { renderChartArg with YamlData := g.yamlData }
        let d := resolveDefaultValues env orderDefault args.DefaultValues
        match d.err with
        | some err => { err := some (.ErrCreateRenderSet err), store := s }
        | none =>
          match currentRenderSet env s productName envName userName with
          | .error err => { err := some err, store := s }
          | .ok curRenderset =>
            let chartInfos :=
              spliceChartInfos env renderChartArg1 serviceName helmChart curRenderset.ChartInfos
            persist s
              { curRenderset with ChartInfos := chartInfos, DefaultValues := writtenDefault d }

/-- The document a successful write has put into the store: the newest record. -/
def Store.written (s : Store) : Option RenderSet :=
  s.renderSets.head?

/-! ## Vocabulary of the statements -/

/-- The key of the revision counter of a document (line 342). -/
def revisionKey (doc : RenderSet) : String :=
  "renderset:" ++ doc.Name

/-- The store after a successful write of `doc`: the counter of the document's name has advanced
by one, and the document, stamped with the new counter value, is the newest record. -/
def Store.afterWrite (s : Store) (doc : RenderSet) : Store :=
  { s with
    counters := (revisionKey doc, s.counter (revisionKey doc) + 1) :: s.counters
    renderSets := { doc with Revision := s.counter (revisionKey doc) + 1 } :: s.renderSets }

/-- The per-service change after line 281 (or lines 191-196) has resolved its `YamlData`. -/
def resolvedArg (env : Env) (order : List Nat) (args : RenderChartArg) : RenderChartArg :=
  { args with YamlData := (generateValuesYaml env order args.YamlData).yamlData }

/-- A completion order that a run of `generateValuesYaml` on `yamlData` can show: for a `GitRepo`
source with a config, every task index `0, ..., n-1` exactly once. -/
def ValidOrder (yamlData : Option YamlData) (order : List Nat) : Prop :=
  ∀ yd cfg, yamlData = some yd → yd.YamlSource = ValuesYamlSourceGitRepo →
    yd.GitRepoConfig = some cfg → order.Perm (List.range cfg.ValuesPaths.length)

/-- The downloaded content of `path` (the empty text when the download fails). -/
def fragmentOf (env : Env) (cfg : RepoConfig) (path : String) : String :=
  match env.DownloadFileFromSource (downloadArgs cfg path) with
  | .ok fileContent => fileContent
  | .error _ => ""

/-- An error that reports the failed download of one of the paths of `cfg`. -/
def IsFetchError (env : Env) (cfg : RepoConfig) (e : Error) : Prop :=
  ∃ cause path, e = .downloadFailed cause path cfg ∧ path ∈ cfg.ValuesPaths ∧
    env.DownloadFileFromSource (downloadArgs cfg path) = .error cause

/-! ## Sample data -/

/-- A sample environment: every text but one parses, every path but `missing.yaml` downloads,
fragments are merged by concatenation, the catalog knows `svc1` and `svc2`, and an override is
kept next to the `ValuesYaml` of an entry, which it leaves as it is; a result is loaded with the
service name, chart version and override of the entry. -/
def sampleEnv : Env :=
  { yamlUnmarshal := fun s => decide (s ≠ "a: [")
    DownloadFileFromSource := fun a =>
      if a.Path = "missing.yaml" then .error "404" else .ok (a.Path ++ ": 1\n")
    Merge := fun l => .ok (String.join l)
    GetProductEnvNamespace := fun envName productName _ => productName ++ "-env-" ++ envName
    FindService := fun opt =>
      if opt.ServiceName = "svc1" ∨ opt.ServiceName = "svc2" then
        .ok (some { HelmChart := some { ValuesYaml := "replicas: 1", Version := "1.0.0" } })
      else .ok none
    applyOverride := fun _ valuesYaml => valuesYaml
    LoadFromRenderChartModel := fun args chart =>
      { args with ServiceName := chart.ServiceName, ChartVersion := chart.ChartVersion,
                  YamlData := chart.Source } }

/-- A repository with the given list of paths. -/
def sampleRepo (paths : List String) : RepoConfig :=
  { CodehostID := 1, Owner := "koderover", Repo := "charts", Branch := "main",
    ValuesPaths := paths }

/-- A `GitRepo` source over the given list of paths. -/
def sampleGitSource (paths : List String) : YamlData :=
  { YamlSource := ValuesYamlSourceGitRepo, GitRepoConfig := some (sampleRepo paths),
    ValuesYAML := "old: 0" }

/-- A `FreeEdit` source with the given text. -/
def sampleFreeEdit (text : String) : YamlData :=
  { YamlSource := ValuesYamlSourceFreeEdit, GitRepoConfig := none, ValuesYAML := text }

/-- A sample store: one document `proj-x-env-env-a` at revision 3 with the single entry `svc1`. -/
def sampleStore : Store :=
  { renderSets :=
      [{ Name := "proj-x-env-env-a", Revision := 3, EnvName := "env-a", ProductTmpl := "proj-x",
         UpdateBy := "alice", IsDefault := false, DefaultValues := "d: 0",
         ChartInfos := [{ ServiceName := "svc1", ChartVersion := "0.9.0", ValuesYaml := "a: 1",
                          Source := none }] }]
    counters := [("renderset:proj-x-env-env-a", 3)]
    findFault := none, counterFault := none, insertFault := none }

/-- A per-service change for `serviceName` that carries the given override. -/
def sampleChange (serviceName : String) (yamlData : Option YamlData) : RenderChartArg :=
  { EnvName := "", ServiceName := serviceName, ChartVersion := "", YamlData := yamlData }

/-- The sample environment with an overlay by concatenation: the text of the override is put
after the `ValuesYaml` underneath, on a new line. -/
def concatOverlayEnv : Env :=
  { sampleEnv with
    applyOverride := fun override valuesYaml =>
      match override with
      | some yamlData => valuesYaml ++ "\n" ++ yamlData.ValuesYAML
      | none => valuesYaml }

/-! ## Lemmas on the fetch phase -/

theorem fetchStep_keeps_error (env : Env) (cfg : RepoConfig) (st : FetchState) (index : Nat)
    (h : ∃ e, st.err = some e ∧ IsFetchError env cfg e) :
    ∃ e, (fetchStep env cfg st index).err = some e ∧ IsFetchError env cfg e := by
  unfold fetchStep
  cases hp : cfg.ValuesPaths[index]? with
  | none => simpa using h
  | some path =>
    have hmem : path ∈ cfg.ValuesPaths := List.getElem?_mem hp
    simp only [fetchTask]
    cases hd : env.DownloadFileFromSource (downloadArgs cfg path) with
    | error cause => exact ⟨_, rfl, cause, path, rfl, hmem, hd⟩
    | ok c => simpa using h

theorem foldl_keeps_error (env : Env) (cfg : RepoConfig) (order : List Nat) :
    ∀ st : FetchState, (∃ e, st.err = some e ∧ IsFetchError env cfg e) →
      ∃ e, (order.foldl (fetchStep env cfg) st).err = some e ∧ IsFetchError env cfg e := by
  induction order with
  | nil => intro st h; simpa using h
  | cons i rest ih =>
    intro st h
    simp only [List.foldl_cons]
    exact ih _ (fetchStep_keeps_error env cfg st i h)

theorem foldl_error_of_failing (env : Env) (cfg : RepoConfig) (i : Nat) (path cause : String)
    (hp : cfg.ValuesPaths[i]? = some path)
    (hd : env.DownloadFileFromSource (downloadArgs cfg path) = .error cause)
    (order : List Nat) :
    ∀ st : FetchState, i ∈ order →
      ∃ e, (order.foldl (fetchStep env cfg) st).err = some e ∧ IsFetchError env cfg e := by
  induction order with
  | nil => intro st h; simp at h
  | cons j rest ih =>
    intro st h
    simp only [List.foldl_cons]
    by_cases hij : i = j
    · subst hij
      apply foldl_keeps_error
      unfold fetchStep
      rw [hp]
      simp only [fetchTask, hd]
      exact ⟨_, rfl, cause, path, rfl, List.getElem?_mem hp, hd⟩
    · have : i ∈ rest := by
        rcases List.mem_cons.mp h with h1 | h1
        · exact absurd h1 hij
        · exact h1
      exact ih _ this

/-- With every download succeeding, the fetches leave `err` as it was, and the map holds the
content of path `j` under every key `j` that completed. -/
theorem foldl_all_ok (env : Env) (cfg : RepoConfig)
    (hok : ∀ path ∈ cfg.ValuesPaths,
      ∃ c, env.DownloadFileFromSource (downloadArgs cfg path) = .ok c)
    (order : List Nat) :
    ∀ st : FetchState,
      (order.foldl (fetchStep env cfg) st).err = st.err ∧
      ∀ j path, cfg.ValuesPaths[j]? = some path →
        (order.foldl (fetchStep env cfg) st).fileContentMap.lookup j =
          if j ∈ order then some (fragmentOf env cfg path) else st.fileContentMap.lookup j := by
  induction order with
  | nil => intro st; simp
  | cons i rest ih =>
    intro st
    simp only [List.foldl_cons]
    obtain ⟨h1, h2⟩ := ih (fetchStep env cfg st i)
    have hstep : (fetchStep env cfg st i).err = st.err ∧
        ∀ j path, cfg.ValuesPaths[j]? = some path →
          (fetchStep env cfg st i).fileContentMap.lookup j =
            if j = i then some (fragmentOf env cfg path) else st.fileContentMap.lookup j := by
      unfold fetchStep
      cases hp : cfg.ValuesPaths[i]? with
      | none =>
        refine ⟨rfl, ?_⟩
        intro j path hj
        have : j ≠ i := by
          intro hji; subst hji; rw [hp] at hj; cases hj
        simp [this]
      | some p =>
        obtain ⟨c, hc⟩ := hok p (List.getElem?_mem hp)
        simp only [fetchTask, hc]
        refine ⟨by first | rfl | trivial, ?_⟩
        intro j path hj
        by_cases hji : j = i
        · subst hji
          rw [hp] at hj
          cases hj
          simp [fragmentOf, hc]
        · have hne : (j == i) = false := by simpa using hji
          simp [List.lookup_cons, hne, hji]
    refine ⟨h1.trans hstep.1, ?_⟩
    intro j path hj
    rw [h2 j path hj, hstep.2 j path hj]
    by_cases hjr : j ∈ rest
    · simp [hjr]
    · by_cases hji : j = i
      · simp [hji]
      · simp [hjr, hji]

theorem loadKeys_eq_some (m : List (Nat × String)) (g : Nat → String) :
    ∀ l : List Nat, (∀ a ∈ l, m.lookup a = some (g a)) → loadKeys m l = some (l.map g) := by
  intro l
  induction l with
  | nil => intro _; rfl
  | cons a rest ih =>
    intro h
    have ha := h a (List.mem_cons_self a rest)
    have hr := ih (fun b hb => h b (List.mem_cons_of_mem a hb))
    simp [loadKeys, ha, hr]

theorem loadFragments_eq (m : List (Nat × String)) (frags : List String)
    (h : ∀ j (hj : j < frags.length), m.lookup j = some (frags.get ⟨j, hj⟩)) :
    loadFragments m frags.length = some frags := by
  unfold loadFragments
  rw [loadKeys_eq_some m (fun i => frags.getD i "")]
  · congr 1
    apply List.ext_getElem
    · simp
    · intro n h1 h2
      simp at h1
      simp [List.getD_eq_getElem?_getD, h1]
  · intro j hj
    have hj2 : j < frags.length := List.mem_range.mp hj
    rw [h j hj2]
    simp [List.getD_eq_getElem?_getD, hj2]

/-! ## Resolution of a source (`generateValuesYaml`) -/

/-- C10: for a `FreeEdit` source, `generateValuesYaml` returns what `validateYamlContent` returns
for the literal text: no error exactly when the text parses, the error "yaml content illegal" when
it does not; in both cases the source is left as it was (its `ValuesYAML` is the input text) and
no merge takes place. -/
theorem generateValuesYaml_freeEdit (env : Env) (order : List Nat) (yd : YamlData)
    (hsrc : yd.YamlSource = ValuesYamlSourceFreeEdit) :
    (generateValuesYaml env order (some yd)).err = validateYamlContent env yd.ValuesYAML ∧
    ((generateValuesYaml env order (some yd)).err = none ↔
      env.yamlUnmarshal yd.ValuesYAML = true) ∧
    (env.yamlUnmarshal yd.ValuesYAML = false →
      (generateValuesYaml env order (some yd)).err = some (.text "yaml content illegal")) ∧
    (generateValuesYaml env order (some yd)).yamlData = some yd ∧
    (generateValuesYaml env order (some yd)).mergeInput = none := by
  have h : generateValuesYaml env order (some yd) =
      { err := validateYamlContent env yd.ValuesYAML, yamlData := some yd,
        mergeInput := none } := by
    simp [generateValuesYaml, hsrc]
  rw [h]
  refine ⟨rfl, ?_, ?_, rfl, rfl⟩
  · cases hu : env.yamlUnmarshal yd.ValuesYAML <;> simp [validateYamlContent, hu]
  · intro hu
    simp [validateYamlContent, hu]

/-- Witness of C10 on a text that parses: the call succeeds and the text is unchanged. -/
theorem generateValuesYaml_freeEdit_witness :
    (sampleFreeEdit "a: 2").YamlSource = ValuesYamlSourceFreeEdit ∧
    (generateValuesYaml sampleEnv [] (some (sampleFreeEdit "a: 2"))).err = none ∧
    (generateValuesYaml sampleEnv [] (some (sampleFreeEdit "a: 2"))).yamlData =
      some (sampleFreeEdit "a: 2") :=
  ⟨rfl,
   ((generateValuesYaml_freeEdit sampleEnv [] (sampleFreeEdit "a: 2") rfl).2.1).mpr (by decide),
   (generateValuesYaml_freeEdit sampleEnv [] (sampleFreeEdit "a: 2") rfl).2.2.2.1⟩

theorem gitRepo_ne_freeEdit : ValuesYamlSourceGitRepo ≠ ValuesYamlSourceFreeEdit := by decide

/-- The shape of `generateValuesYaml` on a `GitRepo` source whose config is present. -/
theorem generateValuesYaml_gitRepo (env : Env) (order : List Nat) (yd : YamlData)
    (cfg : RepoConfig) (hsrc : yd.YamlSource = ValuesYamlSourceGitRepo)
    (hcfg : yd.GitRepoConfig = some cfg) :
    generateValuesYaml env order (some yd) =
      match (runFetches env cfg order).err with
      | some err => { err := some err, yamlData := some yd, mergeInput := none }
      | none =>
        match loadFragments (runFetches env cfg order).fileContentMap cfg.ValuesPaths.length with
        | none => { err := some (.panic "interface conversion: interface is nil, not []uint8"),
                    yamlData := some yd, mergeInput := none }
        | some allValueYamls =>
          match env.Merge allValueYamls with
          | .error _ => { err := some (.mergeFailed cfg), yamlData := some yd,
                          mergeInput := some allValueYamls }
          | .ok allValues => { err := none, yamlData := some { yd with ValuesYAML := allValues },
                               mergeInput := some allValueYamls } := by
  simp only [generateValuesYaml, hsrc, hcfg, gitRepo_ne_freeEdit, if_false, if_true]

/-- With every download succeeding and every task completing once, the fetch phase ends without
error and the fragments are loaded in the order of the path list. -/
theorem runFetches_all_ok (env : Env) (cfg : RepoConfig) (order : List Nat)
    (hok : ∀ path ∈ cfg.ValuesPaths,
      ∃ c, env.DownloadFileFromSource (downloadArgs cfg path) = .ok c)
    (horder : order.Perm (List.range cfg.ValuesPaths.length)) :
    (runFetches env cfg order).err = none ∧
    loadFragments (runFetches env cfg order).fileContentMap cfg.ValuesPaths.length =
      some (cfg.ValuesPaths.map (fragmentOf env cfg)) := by
  obtain ⟨h1, h2⟩ := foldl_all_ok env cfg hok order { err := none, fileContentMap := [] }
  refine ⟨h1, ?_⟩
  have hlen : cfg.ValuesPaths.length = (cfg.ValuesPaths.map (fragmentOf env cfg)).length := by
    simp
  rw [hlen]
  apply loadFragments_eq
  intro j hj
  have hj2 : j < cfg.ValuesPaths.length := by simpa using hj
  have hmem : j ∈ order := (horder.mem_iff).mpr (List.mem_range.mpr hj2)
  have hget : cfg.ValuesPaths[j]? = some (cfg.ValuesPaths[j]) := List.getElem?_eq_getElem hj2
  have := h2 j _ hget
  unfold runFetches
  rw [this]
  simp [hmem]

/-- C4: for a `GitRepo` source whose downloads all succeed, whatever the order in which the
fetches complete (any permutation of the task indices), the fragments handed to the merge step are
the downloaded contents of path 0, path 1, ..., path n-1 in the order of the path list; hence two
completion orders give the same result, the same `ValuesYAML` included. -/
theorem generateValuesYaml_order_independent (env : Env) (yd : YamlData) (cfg : RepoConfig)
    (order order2 : List Nat)
    (hsrc : yd.YamlSource = ValuesYamlSourceGitRepo) (hcfg : yd.GitRepoConfig = some cfg)
    (hok : ∀ path ∈ cfg.ValuesPaths,
      ∃ c, env.DownloadFileFromSource (downloadArgs cfg path) = .ok c)
    (horder : order.Perm (List.range cfg.ValuesPaths.length))
    (horder2 : order2.Perm (List.range cfg.ValuesPaths.length)) :
    (∀ path ∈ cfg.ValuesPaths,
      env.DownloadFileFromSource (downloadArgs cfg path) = .ok (fragmentOf env cfg path)) ∧
    (generateValuesYaml env order (some yd)).mergeInput =
      some (cfg.ValuesPaths.map (fragmentOf env cfg)) ∧
    generateValuesYaml env order2 (some yd) = generateValuesYaml env order (some yd) := by
  obtain ⟨e1, l1⟩ := runFetches_all_ok env cfg order hok horder
  obtain ⟨e2, l2⟩ := runFetches_all_ok env cfg order2 hok horder2
  refine ⟨?_, ?_, ?_⟩
  · intro path hp
    obtain ⟨c, hc⟩ := hok path hp
    simp [fragmentOf, hc]
  · rw [generateValuesYaml_gitRepo env order yd cfg hsrc hcfg, e1, l1]
    dsimp only
    split <;> rfl
  · rw [generateValuesYaml_gitRepo env order yd cfg hsrc hcfg,
      generateValuesYaml_gitRepo env order2 yd cfg hsrc hcfg, e1, l1, e2, l2]

/-- Witness of C4 on three paths, completing in the orders 2, 0, 1 and 1, 2, 0. -/
theorem generateValuesYaml_order_independent_witness :
    (generateValuesYaml sampleEnv [2, 0, 1] (some (sampleGitSource ["a", "b", "c"]))).mergeInput =
      some ["a: 1\n", "b: 1\n", "c: 1\n"] ∧
    generateValuesYaml sampleEnv [1, 2, 0] (some (sampleGitSource ["a", "b", "c"])) =
      generateValuesYaml sampleEnv [2, 0, 1] (some (sampleGitSource ["a", "b", "c"])) :=
  have h := generateValuesYaml_order_independent sampleEnv (sampleGitSource ["a", "b", "c"])
    (sampleRepo ["a", "b", "c"]) [2, 0, 1] [1, 2, 0] rfl rfl
    (by
      intro path hp
      simp only [sampleRepo, List.mem_cons, List.mem_singleton, List.not_mem_nil, or_false] at hp
      rcases hp with rfl | rfl | rfl <;> exact ⟨_, rfl⟩)
    (by decide) (by decide)
  ⟨h.2.1.trans (by decide), h.2.2⟩

/-- C5: for a `GitRepo` source one of whose paths fails to download, whatever the outcome of the
other downloads and whatever the order in which the fetches complete, `generateValuesYaml` returns
an error that reports a failed download of one of the paths, hands nothing to the merge step, and
leaves the source (its `ValuesYAML` included) as it was. -/
theorem generateValuesYaml_fetch_failure (env : Env) (order : List Nat) (yd : YamlData)
    (cfg : RepoConfig) (i : Nat) (path cause : String)
    (hsrc : yd.YamlSource = ValuesYamlSourceGitRepo) (hcfg : yd.GitRepoConfig = some cfg)
    (horder : order.Perm (List.range cfg.ValuesPaths.length))
    (hp : cfg.ValuesPaths[i]? = some path)
    (hd : env.DownloadFileFromSource (downloadArgs cfg path) = .error cause) :
    (∃ e, (generateValuesYaml env order (some yd)).err = some e ∧ IsFetchError env cfg e) ∧
    (generateValuesYaml env order (some yd)).mergeInput = none ∧
    (generateValuesYaml env order (some yd)).yamlData = some yd := by
  have hi : i < cfg.ValuesPaths.length := by
    obtain ⟨h, _⟩ := List.getElem?_eq_some.mp hp
    exact h
  have hmem : i ∈ order := (horder.mem_iff).mpr (List.mem_range.mpr hi)
  obtain ⟨e, he, hfe⟩ := foldl_error_of_failing env cfg i path cause hp hd order
    { err := none, fileContentMap := [] } hmem
  have he2 : (runFetches env cfg order).err = some e := he
  rw [generateValuesYaml_gitRepo env order yd cfg hsrc hcfg, he2]
  exact ⟨⟨e, rfl, hfe⟩, rfl, rfl⟩

/-- Witness of C5: the second of three paths fails, the fetches complete in the order 2, 0, 1. -/
theorem generateValuesYaml_fetch_failure_witness :
    (∃ e, (generateValuesYaml sampleEnv [2, 0, 1]
        (some (sampleGitSource ["a", "missing.yaml", "c"]))).err = some e ∧
      IsFetchError sampleEnv (sampleRepo ["a", "missing.yaml", "c"]) e) ∧
    (generateValuesYaml sampleEnv [2, 0, 1]
        (some (sampleGitSource ["a", "missing.yaml", "c"]))).mergeInput = none ∧
    (generateValuesYaml sampleEnv [2, 0, 1]
        (some (sampleGitSource ["a", "missing.yaml", "c"]))).yamlData =
      some (sampleGitSource ["a", "missing.yaml", "c"]) :=
  generateValuesYaml_fetch_failure sampleEnv [2, 0, 1] (sampleGitSource ["a", "missing.yaml", "c"])
    (sampleRepo ["a", "missing.yaml", "c"]) 1 "missing.yaml" "404" rfl rfl (by decide) rfl rfl

/-- Counterexample to C8 as stated: with a merge step that concatenates its fragments, a `GitRepo`
source whose config is present and whose path list is empty is resolved with success. -/
theorem generateValuesYaml_empty_paths_succeeds :
    (sampleGitSource []).YamlSource = ValuesYamlSourceGitRepo ∧
    (sampleGitSource []).GitRepoConfig = some (sampleRepo []) ∧
    (sampleRepo []).ValuesPaths = [] ∧
    generateValuesYaml sampleEnv [] (some (sampleGitSource [])) =
      { err := none, yamlData := some { sampleGitSource [] with ValuesYAML := "" },
        mergeInput := some [] } := by
  decide

/-- C8, amended: `generateValuesYaml` has no check of its own on the path list.  For a `GitRepo`
source whose config is present and whose `ValuesPaths` is empty, no fetch touches the shared
state, the merge step is handed the empty fragment list, and the call reports success exactly when
merging the empty list succeeds (`ValuesYAML` then becomes the merge result); otherwise it returns
the merge error. -/
theorem generateValuesYaml_empty_paths (env : Env) (order : List Nat) (yd : YamlData)
    (cfg : RepoConfig) (hsrc : yd.YamlSource = ValuesYamlSourceGitRepo)
    (hcfg : yd.GitRepoConfig = some cfg) (hempty : cfg.ValuesPaths = []) :
    runFetches env cfg order = { err := none, fileContentMap := [] } ∧
    generateValuesYaml env order (some yd) =
      match env.Merge [] with
      | .error _ => { err := some (.mergeFailed cfg), yamlData := some yd, mergeInput := some [] }
      | .ok allValues => { err := none, yamlData := some { yd with ValuesYAML := allValues },
                           mergeInput := some [] } := by
  have hrun : ∀ (l : List Nat) (st : FetchState), l.foldl (fetchStep env cfg) st = st := by
    intro l
    induction l with
    | nil => intro st; rfl
    | cons j rest ih =>
      intro st
      simp only [List.foldl_cons]
      rw [ih]
      simp [fetchStep, hempty]
  have h0 : runFetches env cfg order = { err := none, fileContentMap := [] } := hrun order _
  refine ⟨h0, ?_⟩
  rw [generateValuesYaml_gitRepo env order yd cfg hsrc hcfg, h0]
  simp only [hempty, List.length_nil, loadFragments, List.range_zero, loadKeys]

/-- Witness of C8 as amended, on the sample environment. -/
theorem generateValuesYaml_empty_paths_witness :
    (generateValuesYaml sampleEnv [] (some (sampleGitSource []))).mergeInput = some [] :=
  (congrArg GenResult.mergeInput
    (generateValuesYaml_empty_paths sampleEnv [] (sampleGitSource []) (sampleRepo []) rfl rfl
      rfl).2).trans rfl

/-! ## Read-side queries (`GetRenderCharts`) -/

theorem splitComma_ne_nil (cs : List Char) : splitComma cs ≠ [] := by
  cases cs with
  | nil => simp [splitComma]
  | cons c rest =>
    simp only [splitComma]
    split
    · simp
    · split <;> simp

/-- Joining the pieces with commas gives the text back, and no piece holds a comma: the pieces are
the comma-separated names of the text. -/
theorem splitComma_spec (cs : List Char) :
    List.intercalate [','] (splitComma cs) = cs ∧ ∀ w ∈ splitComma cs, ',' ∉ w := by
  induction cs with
  | nil => simp [splitComma, List.intercalate]
  | cons c rest ih =>
    obtain ⟨ih1, ih2⟩ := ih
    simp only [splitComma]
    by_cases hc : c = ','
    · simp only [hc, if_true]
      refine ⟨?_, ?_⟩
      · cases hs : splitComma rest with
        | nil => exact absurd hs (splitComma_ne_nil rest)
        | cons w ws =>
          rw [hs] at ih1
          simp only [List.intercalate, List.intersperse, List.flatten] at ih1 ⊢
          simp [ih1]
      · intro w hw
        rcases List.mem_cons.mp hw with h | h
        · simp [h]
        · exact ih2 w h
    · simp only [hc, if_false]
      cases hs : splitComma rest with
      | nil => exact absurd hs (splitComma_ne_nil rest)
      | cons w ws =>
        rw [hs] at ih1 ih2
        refine ⟨?_, ?_⟩
        · cases ws with
          | nil =>
            simp only [List.intercalate, List.intersperse, List.flatten] at ih1 ⊢
            simp at ih1 ⊢
            exact ih1
          | cons w2 ws2 =>
            simp only [List.intercalate, List.intersperse, List.flatten] at ih1 ⊢
            simp at ih1 ⊢
            exact ih1
        · intro v hv
          rcases List.mem_cons.mp hv with h | h
          · subst h
            intro hmem
            rcases List.mem_cons.mp hmem with h1 | h1
            · exact hc h1.symm
            · exact ih2 w (List.mem_cons_self w ws) h1
          · exact ih2 v (List.mem_cons_of_mem w h)

/-- C3: for a stored Renderset and a non-empty service-name filter, `GetRenderCharts` returns,
without error, one result per entry of `chartInfos` whose `serviceName` is among the
comma-separated names of the filter, in stored order: the filtered sublist of `chartInfos`, each
entry loaded into a result that carries the requested `envName`.  Names of the filter that match
no entry contribute nothing. -/
theorem GetRenderCharts_filtered (env : Env) (s : Store)
    (productName envName serviceName : String) (rendersetObj : RenderSet)
    (hfound : s.FindRenderSet (env.GetProductEnvNamespace envName productName "") =
      .ok (some rendersetObj))
    (hfilter : serviceName.length ≠ 0) :
    GetRenderCharts env s productName envName serviceName =
      .ok ((rendersetObj.ChartInfos.filter
              (fun c => decide (c.ServiceName ∈ Split serviceName))).map
            (fun c => { env.LoadFromRenderChartModel RenderChartArg.new c with
                        EnvName := envName })) ∧
    List.intercalate [','] ((Split serviceName).map String.toList) = serviceName.toList ∧
    ∀ name ∈ Split serviceName, ',' ∉ name.toList := by
  refine ⟨?_, ?_, ?_⟩
  · simp only [GetRenderCharts, hfound, renderChartsOf, hfilter, if_false]
  · have h := (splitComma_spec serviceName.toList).1
    simpa [Split, Function.comp_def] using h
  · intro name hname
    simp only [Split, List.mem_map] at hname
    obtain ⟨w, hw, rfl⟩ := hname
    exact (splitComma_spec serviceName.toList).2 w hw

/-- Witness of C3: the filter "svc1,svc9" on the sample store, which holds only `svc1`, returns
exactly the one entry of `svc1`. -/
theorem GetRenderCharts_filtered_witness :
    GetRenderCharts sampleEnv sampleStore "proj-x" "env-a" "svc1,svc9" =
      .ok [{ EnvName := "env-a", ServiceName := "svc1", ChartVersion := "0.9.0",
             YamlData := none }] :=
  (GetRenderCharts_filtered sampleEnv sampleStore "proj-x" "env-a" "svc1,svc9"
    (sampleStore.renderSets.headD (freshRenderSet "" "" "" "")) rfl (by decide)).1.trans
    rfl

/-! ## Persistence and revisioning (`ensureHelmRenderSetArgs`) -/

theorem counter_after_next (s : Store) (key : String) (v : Int) :
    Store.counter { s with counters := (key, v) :: s.counters } key = v := by
  simp [Store.counter]

/-- C7: `ensureHelmRenderSetArgs` fails with the error "empty render set name" when the name is
empty, and then neither the store (no counter value is consumed) nor the document changes; when
the name is not empty and the counter keyed by `"renderset:" ++ name` answers, it sets `Revision`
to the counter's answer and changes no other field.  With the incrementing counter, the next
successful call under the same name gets the next revision, which is strictly greater. -/
theorem ensureHelmRenderSetArgs_revision (s : Store) (doc : RenderSet) :
    (doc.Name.length = 0 →
      ensureHelmRenderSetArgs s (some doc) =
        { err := some (.text "empty render set name"), args := some doc, store := s }) ∧
    (doc.Name.length ≠ 0 →
      ∀ rev s1, s.GetNextSeq ("renderset:" ++ doc.Name) = .ok (rev, s1) →
      ensureHelmRenderSetArgs s (some doc) =
        { err := none, args := some { doc with Revision := rev }, store := s1 }) ∧
    (∀ d1 s1,
      ensureHelmRenderSetArgs s (some doc) = { err := none, args := some d1, store := s1 } →
      ∀ doc2 : RenderSet, doc2.Name = doc.Name →
        ∃ d2 s2,
          ensureHelmRenderSetArgs s1 (some doc2) = { err := none, args := some d2, store := s2 } ∧
          d2 = { doc2 with Revision := d1.Revision + 1 } ∧ d1.Revision < d2.Revision) := by
  refine ⟨?_, ?_, ?_⟩
  · intro h
    simp [ensureHelmRenderSetArgs, h]
  · intro h rev s1 hseq
    simp [ensureHelmRenderSetArgs, h, hseq]
  · intro d1 s1 h doc2 hname
    obtain ⟨rs, cs, ff, cf, jf⟩ := s
    obtain ⟨n2, r2, e2, p2, u2, i2, dv2, ci2⟩ := doc2
    simp only at hname
    subst hname
    by_cases hn : doc.Name.length = 0
    · simp [ensureHelmRenderSetArgs, hn] at h
    · cases cf with
      | some cause => simp [ensureHelmRenderSetArgs, hn, Store.GetNextSeq] at h
      | none =>
        simp only [ensureHelmRenderSetArgs, hn, Store.GetNextSeq, if_false] at h
        injection h with _ h2 h3
        injection h2 with h2
        subst h2 h3
        refine ⟨_,
          ⟨rs,
            ("renderset:" ++ doc.Name, (cs.lookup ("renderset:" ++ doc.Name)).getD 0 + 1 + 1) ::
              ("renderset:" ++ doc.Name, (cs.lookup ("renderset:" ++ doc.Name)).getD 0 + 1) :: cs,
            ff, none, jf⟩, ?_, rfl, by simp⟩
        simp [ensureHelmRenderSetArgs, hn, Store.GetNextSeq, Store.counter]

/-- Witness of C7: with the counter of the name at 2, a write gets revision 3 and the next one
revision 4. -/
theorem ensureHelmRenderSetArgs_revision_witness :
    ∃ d2 s2,
      ensureHelmRenderSetArgs
          { sampleStore with
            counters := [("renderset:proj-x-env-env-a", 3), ("renderset:proj-x-env-env-a", 2)] }
          (some (freshRenderSet "proj-x-env-env-a" "env-a" "proj-x" "bob")) =
        { err := none, args := some d2, store := s2 } ∧
      d2 = { freshRenderSet "proj-x-env-env-a" "env-a" "proj-x" "bob" with Revision := 3 + 1 } ∧
      (3 : Int) < d2.Revision :=
  (ensureHelmRenderSetArgs_revision
    { sampleStore with counters := [("renderset:proj-x-env-env-a", 2)] }
    (freshRenderSet "proj-x-env-env-a" "env-a" "proj-x" "bob")).2.2
    { freshRenderSet "proj-x-env-env-a" "env-a" "proj-x" "bob" with Revision := 3 }
    { sampleStore with
      counters := [("renderset:proj-x-env-env-a", 3), ("renderset:proj-x-env-env-a", 2)] }
    rfl (freshRenderSet "proj-x-env-env-a" "env-a" "proj-x" "bob") rfl

/-! ## Lemmas on the write path -/

theorem persist_eq (s : Store) (doc : RenderSet) :
    persist s doc =
      if doc.Name.length = 0 then
        { err := some (.ErrCreateRenderSet (.text "empty render set name")), store := s }
      else
        match s.counterFault with
        | some cause => { err := some (.ErrCreateRenderSet (.nextSeqFailed cause)), store := s }
        | none =>
          match s.insertFault with
          | some cause =>
            { err := some (.ErrCreateRenderSet (.store cause)),
              store := { s with counters :=
                (revisionKey doc, s.counter (revisionKey doc) + 1) :: s.counters } }
          | none => { err := none, store := s.afterWrite doc } := by
  obtain ⟨rs, cs, ff, cf, jf⟩ := s
  by_cases hn : doc.Name.length = 0
  · simp [persist, CreateHelmRenderSet, ensureHelmRenderSetArgs, hn]
  · cases cf with
    | some cause =>
      simp [persist, CreateHelmRenderSet, ensureHelmRenderSetArgs, hn, Store.GetNextSeq]
    | none =>
      cases jf with
      | some cause =>
        simp [persist, CreateHelmRenderSet, ensureHelmRenderSetArgs, hn, Store.GetNextSeq,
          Store.Create, revisionKey]
      | none =>
        simp [persist, CreateHelmRenderSet, ensureHelmRenderSetArgs, hn, Store.GetNextSeq,
          Store.Create, Store.afterWrite, revisionKey]

theorem persist_of (s : Store) (doc : RenderSet) (hn : doc.Name.length ≠ 0)
    (hc : s.counterFault = none) (hi : s.insertFault = none) :
    persist s doc = { err := none, store := s.afterWrite doc } := by
  rw [persist_eq]
  simp [hn, hc, hi]

theorem persist_ok (s : Store) (doc : RenderSet) (hok : (persist s doc).err = none) :
    doc.Name.length ≠ 0 ∧ s.counterFault = none ∧ s.insertFault = none := by
  rw [persist_eq] at hok
  by_cases hn : doc.Name.length = 0
  · simp [hn] at hok
  · cases hc : s.counterFault with
    | some cause => simp [hn, hc] at hok
    | none =>
      cases hi : s.insertFault with
      | some cause => simp [hn, hc, hi] at hok
      | none => exact ⟨hn, rfl, rfl⟩

theorem currentRenderSet_name (env : Env) (s : Store) (productName envName userName : String)
    (cur : RenderSet) (h : currentRenderSet env s productName envName userName = .ok cur) :
    cur.Name = env.GetProductEnvNamespace envName productName "" ∧ s.findFault = none := by
  unfold currentRenderSet Store.FindRenderSet at h
  cases hf : s.findFault with
  | some cause => simp [hf] at h
  | none =>
    simp only [hf] at h
    refine ⟨?_, rfl⟩
    cases hfind : s.renderSets.find?
        (fun d => decide (d.Name = env.GetProductEnvNamespace envName productName "")) with
    | none =>
      simp only [hfind] at h
      injection h with h
      subst h
      rfl
    | some d =>
      simp only [hfind] at h
      injection h with h
      subst h
      have := List.find?_some hfind
      simpa using this

theorem currentRenderSet_afterWrite (env : Env) (s : Store) (productName envName userName : String)
    (doc : RenderSet) (hname : doc.Name = env.GetProductEnvNamespace envName productName "")
    (hf : s.findFault = none) :
    currentRenderSet env (s.afterWrite doc) productName envName userName =
      .ok { doc with Revision := s.counter (revisionKey doc) + 1 } := by
  simp [currentRenderSet, Store.FindRenderSet, Store.afterWrite, hf, hname]

theorem resolveChartValues_eq (env : Env) (order : List Nat) (rca : RenderChartArg) :
    resolveChartValues env order rca = generateValuesYaml env order rca.YamlData := by
  unfold resolveChartValues
  cases rca.YamlData <;> rfl

theorem CreateOrUpdateChartValues_of (env : Env) (order : List Nat) (s : Store)
    (productName envName userName : String) (args : RenderChartArg)
    (helmChart : HelmChart) (cur : RenderSet)
    (hh : findHelmChart env productName args.ServiceName = .ok helmChart)
    (hg : (generateValuesYaml env order args.YamlData).err = none)
    (hc : currentRenderSet env s productName envName userName = .ok cur) :
    CreateOrUpdateChartValues env order s productName envName args userName =
      persist s
        { cur with
          ChartInfos :=
            spliceChartInfos env (resolvedArg env order args) args.ServiceName helmChart
              cur.ChartInfos } := by
  simp only [CreateOrUpdateChartValues, hh, hg, hc, resolvedArg]

theorem CreateOrUpdateChartValues_ok (env : Env) (order : List Nat) (s : Store)
    (productName envName userName : String) (args : RenderChartArg)
    (hok : (CreateOrUpdateChartValues env order s productName envName args userName).err =
      none) :
    ∃ helmChart cur,
      findHelmChart env productName args.ServiceName = .ok helmChart ∧
      (generateValuesYaml env order args.YamlData).err = none ∧
      currentRenderSet env s productName envName userName = .ok cur := by
  unfold CreateOrUpdateChartValues at hok
  cases hh : findHelmChart env productName args.ServiceName with
  | error e => simp [hh] at hok
  | ok helmChart =>
    cases hg : (generateValuesYaml env order args.YamlData).err with
    | some e => simp [hh, hg] at hok
    | none =>
      cases hc : currentRenderSet env s productName envName userName with
      | error e => simp [hh, hg, hc] at hok
      | ok cur =>
        exact ⟨helmChart, cur, by first | exact hh | rfl, by first | exact hg | rfl,
          by first | exact hc | rfl⟩

theorem CreateOrUpdateRenderset_of (env : Env) (order orderDefault : List Nat) (s : Store)
    (productName envName userName : String) (args : RendersetArg) (rca : RenderChartArg)
    (helmChart : HelmChart) (cur : RenderSet)
    (ha : args.RenderChartArg = some rca)
    (hh : findHelmChart env productName rca.ServiceName = .ok helmChart)
    (hg : (generateValuesYaml env order rca.YamlData).err = none)
    (hd : (resolveDefaultValues env orderDefault args.DefaultValues).err = none)
    (hc : currentRenderSet env s productName envName userName = .ok cur) :
    CreateOrUpdateRenderset env order orderDefault s productName envName args userName =
      persist s { cur with
        ChartInfos :=
          spliceChartInfos env (resolvedArg env order rca) rca.ServiceName helmChart cur.ChartInfos,
        DefaultValues :=
          writtenDefault (resolveDefaultValues env orderDefault args.DefaultValues) } := by
  simp only [CreateOrUpdateRenderset, ha, hh, hg, hd, hc, resolvedArg, resolveChartValues_eq]

theorem CreateOrUpdateRenderset_ok (env : Env) (order orderDefault : List Nat) (s : Store)
    (productName envName userName : String) (args : RendersetArg)
    (hok : (CreateOrUpdateRenderset env order orderDefault s productName envName args
      userName).err = none) :
    ∃ rca helmChart cur,
      args.RenderChartArg = some rca ∧
      findHelmChart env productName rca.ServiceName = .ok helmChart ∧
      (generateValuesYaml env order rca.YamlData).err = none ∧
      (resolveDefaultValues env orderDefault args.DefaultValues).err = none ∧
      currentRenderSet env s productName envName userName = .ok cur := by
  unfold CreateOrUpdateRenderset at hok
  cases ha : args.RenderChartArg with
  | none => simp [ha] at hok
  | some rca =>
    cases hh : findHelmChart env productName rca.ServiceName with
    | error e => simp [ha, hh] at hok
    | ok helmChart =>
      cases hg : (resolveChartValues env order rca).err with
      | some e => simp [ha, hh, hg] at hok
      | none =>
        cases hd : (resolveDefaultValues env orderDefault args.DefaultValues).err with
        | some e => simp [ha, hh, hg, hd] at hok
        | none =>
          cases hc : currentRenderSet env s productName envName userName with
          | error e => simp [ha, hh, hg, hd, hc] at hok
          | ok cur =>
            rw [resolveChartValues_eq] at hg
            exact ⟨rca, helmChart, cur, rfl, hh, hg, by first | exact hd | rfl,
              by first | exact hc | rfl⟩

theorem fillFirstMatch_none (env : Env) (args : RenderChartArg) (serviceName : String) :
    ∀ l : List RenderChart, (∀ c ∈ l, c.ServiceName ≠ serviceName) →
      fillFirstMatch env args serviceName l = none := by
  intro l
  induction l with
  | nil => intro _; rfl
  | cons c rest ih =>
    intro h
    have hc := h c (List.mem_cons_self c rest)
    have hr := ih (fun d hd => h d (List.mem_cons_of_mem c hd))
    simp [fillFirstMatch, hc, hr]

theorem fillFirstMatch_split (env : Env) (args : RenderChartArg) (serviceName : String)
    (pre post : List RenderChart) (target : RenderChart)
    (hpre : ∀ c ∈ pre, c.ServiceName ≠ serviceName) (ht : target.ServiceName = serviceName) :
    fillFirstMatch env args serviceName (pre ++ target :: post) =
      some (pre ++ args.FillRenderChartModel env target target.ChartVersion :: post) := by
  induction pre with
  | nil => simp [fillFirstMatch, ht]
  | cons c rest ih =>
    have hc := hpre c (List.mem_cons_self c rest)
    have hr := ih (fun d hd => hpre d (List.mem_cons_of_mem c hd))
    simp [fillFirstMatch, hc, hr]

theorem exists_first_match (serviceName : String) :
    ∀ l : List RenderChart, (∃ c ∈ l, c.ServiceName = serviceName) →
      ∃ pre target post, l = pre ++ target :: post ∧
        (∀ c ∈ pre, c.ServiceName ≠ serviceName) ∧ target.ServiceName = serviceName := by
  intro l
  induction l with
  | nil => intro h; obtain ⟨c, hc, _⟩ := h; simp at hc
  | cons c rest ih =>
    intro h
    by_cases hc : c.ServiceName = serviceName
    · exact ⟨[], c, rest, rfl, by simp, hc⟩
    · obtain ⟨d, hd, hdn⟩ := h
      have hd2 : d ∈ rest := by
        rcases List.mem_cons.mp hd with h1 | h1
        · subst h1; exact absurd hdn hc
        · exact h1
      obtain ⟨pre, target, post, hl, hpre, ht⟩ := ih ⟨d, hd2, hdn⟩
      refine ⟨c :: pre, target, post, by simp [hl], ?_, ht⟩
      intro e he
      rcases List.mem_cons.mp he with h1 | h1
      · subst h1; exact hc
      · exact hpre e h1

theorem generateValuesYaml_yamlData (env : Env) (order : List Nat) (yd : YamlData) :
    ∃ r, (generateValuesYaml env order (some yd)).yamlData = some r := by
  unfold generateValuesYaml
  simp only
  split
  · exact ⟨_, rfl⟩
  · split
    · split
      · exact ⟨_, rfl⟩
      · split
        · exact ⟨_, rfl⟩
        · split
          · exact ⟨_, rfl⟩
          · split <;> exact ⟨_, rfl⟩
    · exact ⟨_, rfl⟩

/-! ## The splice step (`CreateOrUpdateChartValues`, `CreateOrUpdateRenderset`) -/

/-- C1: when the current Renderset holds an entry of the service and `CreateOrUpdateChartValues`
succeeds, the written document has the entries of the current one at every position but that of
the first entry of the service, hence a list of the same length; that entry takes the change's
service name and resolved override (applied on top of its `ValuesYaml`) and keeps its
`ChartVersion`; `DefaultValues` and every other field but `Revision` are those of the current
document. -/
theorem CreateOrUpdateChartValues_updates_in_place (env : Env) (order : List Nat) (s : Store)
    (productName envName userName : String) (args : RenderChartArg) (cur : RenderSet)
    (hcur : s.FindRenderSet (env.GetProductEnvNamespace envName productName "") =
      .ok (some cur))
    (hmem : ∃ c ∈ cur.ChartInfos, c.ServiceName = args.ServiceName)
    (hok : (CreateOrUpdateChartValues env order s productName envName args userName).err =
      none) :
    ∃ doc pre target post,
      (CreateOrUpdateChartValues env order s productName envName args userName).store.written =
        some doc ∧
      cur.ChartInfos = pre ++ target :: post ∧
      (∀ c ∈ pre, c.ServiceName ≠ args.ServiceName) ∧
      target.ServiceName = args.ServiceName ∧
      doc.ChartInfos =
        pre ++ { target with
                 ServiceName := args.ServiceName,
                 ValuesYaml :=
                   env.applyOverride (generateValuesYaml env order args.YamlData).yamlData
                     target.ValuesYaml,
                 Source := (generateValuesYaml env order args.YamlData).yamlData } :: post ∧
      doc.ChartInfos.length = cur.ChartInfos.length ∧
      (∀ j, j ≠ pre.length → doc.ChartInfos[j]? = cur.ChartInfos[j]?) ∧
      doc.DefaultValues = cur.DefaultValues ∧
      doc = { cur with ChartInfos := doc.ChartInfos, Revision := doc.Revision } := by
  obtain ⟨helmChart, cur2, hh, hg, hc⟩ :=
    CreateOrUpdateChartValues_ok env order s productName envName userName args hok
  have hcur2 : cur2 = cur := by
    simp only [currentRenderSet, hcur] at hc
    injection hc with hc
    exact hc.symm
  subst hcur2
  rw [CreateOrUpdateChartValues_of env order s productName envName userName args helmChart cur2
    hh hg hc] at hok ⊢
  obtain ⟨hn, hcf, hif⟩ := persist_ok _ _ hok
  rw [persist_of _ _ hn hcf hif]
  obtain ⟨pre, target, post, hl, hpre, ht⟩ := exists_first_match args.ServiceName _ hmem
  have hsplice : spliceChartInfos env (resolvedArg env order args) args.ServiceName helmChart
      cur2.ChartInfos =
      pre ++ { target with
               ServiceName := args.ServiceName,
               ValuesYaml :=
                 env.applyOverride (generateValuesYaml env order args.YamlData).yamlData
                   target.ValuesYaml,
               Source := (generateValuesYaml env order args.YamlData).yamlData } :: post := by
    unfold spliceChartInfos
    rw [hl, fillFirstMatch_split _ _ _ pre post target hpre ht]
    rfl
  refine ⟨_, pre, target, post, rfl, hl, hpre, ht, hsplice, ?_, ?_, rfl, ?_⟩
  · simp only [hsplice]
    rw [hl]
    simp
  · intro j hj
    simp only [hsplice]
    rw [hl]
    rcases Nat.lt_or_gt_of_ne hj with h1 | h1
    · rw [List.getElem?_append_left h1, List.getElem?_append_left h1]
    · rw [List.getElem?_append_right (Nat.le_of_lt h1),
        List.getElem?_append_right (Nat.le_of_lt h1)]
      obtain ⟨k, hk⟩ : ∃ k, j - pre.length = k + 1 := ⟨j - pre.length - 1, by omega⟩
      rw [hk]
      rfl
  · rfl

/-- Witness of C1: the sample store holds `svc1` at chart version 0.9.0; a free-edit change of
`svc1` is written as revision 4 with one entry, still at 0.9.0. -/
theorem CreateOrUpdateChartValues_updates_in_place_witness :
    ∃ doc pre target post,
      (CreateOrUpdateChartValues sampleEnv [] sampleStore "proj-x" "env-a"
        (sampleChange "svc1" (some (sampleFreeEdit "a: 2"))) "bob").store.written = some doc ∧
      (sampleStore.renderSets.headD (freshRenderSet "" "" "" "")).ChartInfos =
        pre ++ target :: post ∧
      (∀ c ∈ pre, c.ServiceName ≠ "svc1") ∧
      target.ServiceName = "svc1" ∧
      doc.ChartInfos =
        pre ++ { target with
                 ServiceName := "svc1",
                 Source := (generateValuesYaml sampleEnv []
                   (some (sampleFreeEdit "a: 2"))).yamlData } :: post ∧
      doc.ChartInfos.length =
        (sampleStore.renderSets.headD (freshRenderSet "" "" "" "")).ChartInfos.length ∧
      (∀ j, j ≠ pre.length → doc.ChartInfos[j]? =
        (sampleStore.renderSets.headD (freshRenderSet "" "" "" "")).ChartInfos[j]?) ∧
      doc.DefaultValues = "d: 0" ∧
      doc = { sampleStore.renderSets.headD (freshRenderSet "" "" "" "") with
              ChartInfos := doc.ChartInfos, Revision := doc.Revision } :=
  CreateOrUpdateChartValues_updates_in_place sampleEnv [] sampleStore "proj-x" "env-a" "bob"
    (sampleChange "svc1" (some (sampleFreeEdit "a: 2")))
    (sampleStore.renderSets.headD (freshRenderSet "" "" "" "")) rfl
    ⟨_, List.mem_cons_self _ _, rfl⟩ (by decide)

theorem findHelmChart_ok (env : Env) (productName serviceName : String) (helmChart : HelmChart)
    (h : findHelmChart env productName serviceName = .ok helmChart) :
    ∃ serviceObj,
      env.FindService
        { ProductName := productName, ServiceName := serviceName,
          DeployType := HelmDeployType } = .ok (some serviceObj) ∧
      serviceObj.HelmChart = some helmChart := by
  unfold findHelmChart at h
  cases hf : env.FindService
      { ProductName := productName, ServiceName := serviceName,
        DeployType := HelmDeployType } with
  | error e => simp [hf] at h
  | ok found =>
    cases found with
    | none => simp [hf] at h
    | some serviceObj =>
      cases hc : serviceObj.HelmChart with
      | none => simp [hf, hc] at h
      | some hc2 =>
        simp only [hf, hc] at h
        injection h with h
        subst h
        exact ⟨serviceObj, rfl, hc⟩

theorem currentRenderSet_of_find (env : Env) (s : Store) (productName envName userName : String)
    (found : Option RenderSet)
    (hfind : s.FindRenderSet (env.GetProductEnvNamespace envName productName "") = .ok found) :
    currentRenderSet env s productName envName userName =
      .ok (found.getD
        (freshRenderSet (env.GetProductEnvNamespace envName productName "") envName productName
          userName)) := by
  cases found <;> simp [currentRenderSet, hfind]

/-- C2: when the current Renderset (the stored one, or the fresh empty one made when the store
holds none) has no entry of the target service, a successful `CreateOrUpdateChartValues`, and a
successful `CreateOrUpdateRenderset` with a per-service change, write `chartInfos` equal to the
current list (the empty list when none is stored) followed by exactly one new entry.  The catalog
answers the query for the service with a service that has chart metadata; the new entry's
`ValuesYaml` is that metadata's `ValuesYaml` with the resolved override of the change applied on
top, its `ChartVersion` is that metadata's `Version`, and it carries the service name. -/
theorem createOrUpdate_appends_new_entry (env : Env) (s : Store)
    (productName envName userName serviceName : String) (found : Option RenderSet)
    (hfind : s.FindRenderSet (env.GetProductEnvNamespace envName productName "") = .ok found)
    (hnew : ∀ cur, found = some cur → ∀ c ∈ cur.ChartInfos, c.ServiceName ≠ serviceName) :
    (∀ (order : List Nat) (args : RenderChartArg), args.ServiceName = serviceName →
      (CreateOrUpdateChartValues env order s productName envName args userName).err = none →
      ∃ doc serviceObj helmChart,
        env.FindService
          { ProductName := productName, ServiceName := serviceName,
            DeployType := HelmDeployType } = .ok (some serviceObj) ∧
        serviceObj.HelmChart = some helmChart ∧
        (CreateOrUpdateChartValues env order s productName envName args
          userName).store.written = some doc ∧
        doc.ChartInfos = ((found.map (fun cur => cur.ChartInfos)).getD []) ++
          [{ ServiceName := serviceName, ChartVersion := helmChart.Version,
             ValuesYaml :=
               env.applyOverride (generateValuesYaml env order args.YamlData).yamlData
                 helmChart.ValuesYaml,
             Source := (generateValuesYaml env order args.YamlData).yamlData }]) ∧
    (∀ (order orderDefault : List Nat) (args : RendersetArg) (rca : RenderChartArg),
      args.RenderChartArg = some rca → rca.ServiceName = serviceName →
      (CreateOrUpdateRenderset env order orderDefault s productName envName args
        userName).err = none →
      ∃ doc serviceObj helmChart,
        env.FindService
          { ProductName := productName, ServiceName := serviceName,
            DeployType := HelmDeployType } = .ok (some serviceObj) ∧
        serviceObj.HelmChart = some helmChart ∧
        (CreateOrUpdateRenderset env order orderDefault s productName envName args
          userName).store.written = some doc ∧
        doc.ChartInfos = ((found.map (fun cur => cur.ChartInfos)).getD []) ++
          [{ ServiceName := serviceName, ChartVersion := helmChart.Version,
             ValuesYaml :=
               env.applyOverride (generateValuesYaml env order rca.YamlData).yamlData
                 helmChart.ValuesYaml,
             Source := (generateValuesYaml env order rca.YamlData).yamlData }]) := by
  have hcur := currentRenderSet_of_find env s productName envName userName found hfind
  have hlist : (found.getD
      (freshRenderSet (env.GetProductEnvNamespace envName productName "") envName productName
        userName)).ChartInfos = (found.map (fun cur => cur.ChartInfos)).getD [] := by
    cases found <;> rfl
  have hnew2 : ∀ c ∈ (found.getD
      (freshRenderSet (env.GetProductEnvNamespace envName productName "") envName productName
        userName)).ChartInfos, c.ServiceName ≠ serviceName := by
    cases found with
    | none => intro c hc; simp [freshRenderSet] at hc
    | some cur => exact hnew cur rfl
  refine ⟨?_, ?_⟩
  · intro order args hsvc hok
    subst hsvc
    obtain ⟨helmChart, cur2, hh, hg, hc⟩ :=
      CreateOrUpdateChartValues_ok env order s productName envName userName args hok
    rw [hcur] at hc
    injection hc with hc
    subst hc
    obtain ⟨serviceObj, hs1, hs2⟩ :=
      findHelmChart_ok env productName args.ServiceName helmChart hh
    rw [CreateOrUpdateChartValues_of env order s productName envName userName args helmChart _
      hh hg hcur] at hok ⊢
    obtain ⟨hn, hcf, hif⟩ := persist_ok _ _ hok
    rw [persist_of _ _ hn hcf hif]
    refine ⟨_, serviceObj, helmChart, hs1, hs2, rfl, ?_⟩
    rw [← hlist]
    simp only [Store.afterWrite, spliceChartInfos, fillFirstMatch_none _ _ _ _ hnew2]
    rfl
  · intro order orderDefault args rca ha hsvc hok
    subst hsvc
    obtain ⟨rca2, helmChart, cur2, ha2, hh, hg, hd, hc⟩ :=
      CreateOrUpdateRenderset_ok env order orderDefault s productName envName userName args hok
    rw [ha] at ha2
    injection ha2 with ha2
    subst ha2
    rw [hcur] at hc
    injection hc with hc
    subst hc
    obtain ⟨serviceObj, hs1, hs2⟩ :=
      findHelmChart_ok env productName rca.ServiceName helmChart hh
    rw [CreateOrUpdateRenderset_of env order orderDefault s productName envName userName args rca
      helmChart _ ha hh hg hd hcur] at hok ⊢
    obtain ⟨hn, hcf, hif⟩ := persist_ok _ _ hok
    rw [persist_of _ _ hn hcf hif]
    refine ⟨_, serviceObj, helmChart, hs1, hs2, rfl, ?_⟩
    rw [← hlist]
    simp only [Store.afterWrite, spliceChartInfos, fillFirstMatch_none _ _ _ _ hnew2]
    rfl

/-- Witness of C2: the sample store has no entry of `svc2`, and the catalog holds the values
`replicas: 1` and the version 1.0.0 for it; a free-edit change of `svc2` appends the one entry
with these values after the entry of `svc1`. -/
theorem createOrUpdate_appends_new_entry_witness :
    (∃ doc serviceObj helmChart,
      sampleEnv.FindService
        { ProductName := "proj-x", ServiceName := "svc2", DeployType := HelmDeployType } =
        .ok (some serviceObj) ∧
      serviceObj.HelmChart = some helmChart ∧
      (CreateOrUpdateChartValues sampleEnv [] sampleStore "proj-x" "env-a"
        (sampleChange "svc2" (some (sampleFreeEdit "a: 2"))) "bob").store.written = some doc ∧
      doc.ChartInfos = ((sampleStore.renderSets.head?.map (fun cur => cur.ChartInfos)).getD []) ++
        [{ ServiceName := "svc2", ChartVersion := helmChart.Version,
           ValuesYaml :=
             sampleEnv.applyOverride
               (generateValuesYaml sampleEnv [] (some (sampleFreeEdit "a: 2"))).yamlData
               helmChart.ValuesYaml,
           Source :=
             (generateValuesYaml sampleEnv [] (some (sampleFreeEdit "a: 2"))).yamlData }]) ∧
    (CreateOrUpdateChartValues sampleEnv [] sampleStore "proj-x" "env-a"
      (sampleChange "svc2" (some (sampleFreeEdit "a: 2"))) "bob").store.written.map
        (fun doc => doc.ChartInfos) =
      some [{ ServiceName := "svc1", ChartVersion := "0.9.0", ValuesYaml := "a: 1",
              Source := none },
            { ServiceName := "svc2", ChartVersion := "1.0.0", ValuesYaml := "replicas: 1",
              Source := some (sampleFreeEdit "a: 2") }] :=
  ⟨(createOrUpdate_appends_new_entry sampleEnv sampleStore "proj-x" "env-a" "bob" "svc2"
      sampleStore.renderSets.head? rfl
      (by intro cur hcur; injection hcur with hcur; subst hcur; decide)).1 []
      (sampleChange "svc2" (some (sampleFreeEdit "a: 2"))) rfl (by decide),
   by decide⟩

theorem generateValuesYaml_not_gitRepo (env : Env) (order : List Nat) (yd : YamlData)
    (hsrc : yd.YamlSource ≠ ValuesYamlSourceGitRepo) :
    (generateValuesYaml env order (some yd)).yamlData = some yd := by
  unfold generateValuesYaml
  simp only [hsrc, if_false]
  split <;> rfl

theorem generateValuesYaml_gitRepo_ok (env : Env) (order : List Nat) (yd : YamlData)
    (hsrc : yd.YamlSource = ValuesYamlSourceGitRepo)
    (hok : (generateValuesYaml env order (some yd)).err = none) :
    ∃ allValueYamls allValues,
      (generateValuesYaml env order (some yd)).mergeInput = some allValueYamls ∧
      env.Merge allValueYamls = .ok allValues ∧
      (generateValuesYaml env order (some yd)).yamlData =
        some { yd with ValuesYAML := allValues } := by
  cases hcfg : yd.GitRepoConfig with
  | none => simp [generateValuesYaml, hsrc, hcfg, gitRepo_ne_freeEdit] at hok
  | some cfg =>
    rw [generateValuesYaml_gitRepo env order yd cfg hsrc hcfg] at hok ⊢
    cases he : (runFetches env cfg order).err with
    | some e => simp [he] at hok
    | none =>
      cases hl : loadFragments (runFetches env cfg order).fileContentMap
          cfg.ValuesPaths.length with
      | none => simp [he, hl] at hok
      | some frags =>
        cases hm : env.Merge frags with
        | error e => simp [he, hl, hm] at hok
        | ok merged =>
          refine ⟨frags, merged, ?_, hm, ?_⟩ <;> simp [he, hl, hm, hcfg]

/-- C9: for every successful `CreateOrUpdateRenderset` call, whatever the stored `DefaultValues`
was.  When an environment default is supplied, the written `DefaultValues` is its resolved text:
for a source that is not empty, the `ValuesYAML` that `generateValuesYaml` leaves (for a `GitRepo`
source the merge of the fetched fragments); for every source but `GitRepo`, the text as supplied.
When no default is supplied, or the supplied one has no text and names no repository, the written
`DefaultValues` is the empty string. -/
theorem CreateOrUpdateRenderset_defaultValues (env : Env) (order orderDefault : List Nat)
    (s : Store) (productName envName userName : String) (args : RendersetArg)
    (hok : (CreateOrUpdateRenderset env order orderDefault s productName envName args
      userName).err = none) :
    ∃ doc,
      (CreateOrUpdateRenderset env order orderDefault s productName envName args
        userName).store.written = some doc ∧
      (∀ dv, args.DefaultValues = some dv → dv.YamlSource ≠ "" →
        (generateValuesYaml env orderDefault (some dv)).err = none ∧
        ∃ r, (generateValuesYaml env orderDefault (some dv)).yamlData = some r ∧
          doc.DefaultValues = r.ValuesYAML) ∧
      (∀ dv, args.DefaultValues = some dv → dv.YamlSource = ValuesYamlSourceGitRepo →
        ∃ allValueYamls allValues,
          (generateValuesYaml env orderDefault (some dv)).mergeInput = some allValueYamls ∧
          env.Merge allValueYamls = .ok allValues ∧ doc.DefaultValues = allValues) ∧
      (∀ dv, args.DefaultValues = some dv → dv.YamlSource ≠ ValuesYamlSourceGitRepo →
        doc.DefaultValues = dv.ValuesYAML) ∧
      (args.DefaultValues = none → doc.DefaultValues = "") ∧
      (∀ dv, args.DefaultValues = some dv → dv.YamlSource ≠ ValuesYamlSourceGitRepo →
        dv.ValuesYAML = "" → doc.DefaultValues = "") := by
  obtain ⟨rca, helmChart, cur, ha, hh, hg, hd, hc⟩ :=
    CreateOrUpdateRenderset_ok env order orderDefault s productName envName userName args hok
  rw [CreateOrUpdateRenderset_of env order orderDefault s productName envName userName args rca
    helmChart cur ha hh hg hd hc] at hok ⊢
  obtain ⟨hn, hcf, hif⟩ := persist_ok _ _ hok
  rw [persist_of _ _ hn hcf hif]
  have hres : ∀ dv, args.DefaultValues = some dv → dv.YamlSource ≠ "" →
      resolveDefaultValues env orderDefault args.DefaultValues =
        generateValuesYaml env orderDefault (some dv) := by
    intro dv hdv hsrc
    simp [resolveDefaultValues, hdv, hsrc]
  have hkeep : ∀ dv, args.DefaultValues = some dv →
      dv.YamlSource ≠ ValuesYamlSourceGitRepo →
      writtenDefault (resolveDefaultValues env orderDefault args.DefaultValues) =
        dv.ValuesYAML := by
    intro dv hdv hsrc
    by_cases he : dv.YamlSource = ""
    · simp [resolveDefaultValues, writtenDefault, hdv, he]
    · rw [hres dv hdv he]
      simp [writtenDefault, generateValuesYaml_not_gitRepo env orderDefault dv hsrc]
  refine ⟨_, rfl, ?_, ?_, ?_, ?_, ?_⟩
  · intro dv hdv hsrc
    rw [hres dv hdv hsrc] at hd
    obtain ⟨r, hr⟩ := generateValuesYaml_yamlData env orderDefault dv
    refine ⟨hd, r, hr, ?_⟩
    simp [Store.afterWrite, writtenDefault, hres dv hdv hsrc, hr]
  · intro dv hdv hsrc
    have hne : dv.YamlSource ≠ "" := by rw [hsrc]; decide
    rw [hres dv hdv hne] at hd
    obtain ⟨frags, merged, h1, h2, h3⟩ :=
      generateValuesYaml_gitRepo_ok env orderDefault dv hsrc hd
    refine ⟨frags, merged, h1, h2, ?_⟩
    simp [Store.afterWrite, writtenDefault, hres dv hdv hne, h3]
  · intro dv hdv hsrc
    simp [Store.afterWrite, hkeep dv hdv hsrc]
  · intro hnone
    simp [Store.afterWrite, resolveDefaultValues, writtenDefault, hnone]
  · intro dv hdv hsrc htext
    simp [Store.afterWrite, hkeep dv hdv hsrc, htext]

/-- Witness of C9 on the sample store, whose stored default is "d: 0": a request with the
free-edit default "d: 1" writes "d: 1", and a request without a default writes the empty
string. -/
theorem CreateOrUpdateRenderset_defaultValues_witness :
    (∃ doc,
      (CreateOrUpdateRenderset sampleEnv [] [] sampleStore "proj-x" "env-a"
        { DefaultValues := some (sampleFreeEdit "d: 1"),
          RenderChartArg := some (sampleChange "svc1" none) }
        "bob").store.written = some doc ∧
      doc.DefaultValues = "d: 1") ∧
    (∃ doc,
      (CreateOrUpdateRenderset sampleEnv [] [] sampleStore "proj-x" "env-a"
        { DefaultValues := none, RenderChartArg := some (sampleChange "svc1" none) }
        "bob").store.written = some doc ∧
      doc.DefaultValues = "") :=
  have h1 := CreateOrUpdateRenderset_defaultValues sampleEnv [] [] sampleStore "proj-x" "env-a"
    "bob" { DefaultValues := some (sampleFreeEdit "d: 1"),
            RenderChartArg := some (sampleChange "svc1" none) }
    (by decide)
  have h2 := CreateOrUpdateRenderset_defaultValues sampleEnv [] [] sampleStore "proj-x" "env-a"
    "bob" { DefaultValues := none, RenderChartArg := some (sampleChange "svc1" none) }
    (by decide)
  ⟨⟨h1.choose, h1.choose_spec.1, h1.choose_spec.2.2.2.1 _ rfl (by decide)⟩,
   ⟨h2.choose, h2.choose_spec.1, h2.choose_spec.2.2.2.2.1 rfl⟩⟩

/-! ## Two calls in a row -/

/-- A successful resolution does not depend on the completion order of the fetches. -/
theorem generateValuesYaml_any_order (env : Env) (yamlData : Option YamlData)
    (order order2 : List Nat) (h1 : ValidOrder yamlData order) (h2 : ValidOrder yamlData order2)
    (hok : (generateValuesYaml env order yamlData).err = none) :
    generateValuesYaml env order2 yamlData = generateValuesYaml env order yamlData := by
  cases yamlData with
  | none => rfl
  | some yd =>
    by_cases hfree : yd.YamlSource = ValuesYamlSourceFreeEdit
    · simp [generateValuesYaml, hfree]
    · by_cases hgit : yd.YamlSource = ValuesYamlSourceGitRepo
      · cases hcfg : yd.GitRepoConfig with
        | none => simp [generateValuesYaml, hfree, hgit, hcfg]
        | some cfg =>
          have p1 := h1 yd cfg rfl hgit hcfg
          have p2 := h2 yd cfg rfl hgit hcfg
          have hall : ∀ path ∈ cfg.ValuesPaths,
              ∃ c, env.DownloadFileFromSource (downloadArgs cfg path) = .ok c := by
            intro path hp
            cases hd : env.DownloadFileFromSource (downloadArgs cfg path) with
            | ok c => exact ⟨c, rfl⟩
            | error cause =>
              exfalso
              obtain ⟨i, hi⟩ := List.mem_iff_getElem?.mp hp
              have hlt : i < cfg.ValuesPaths.length := by
                obtain ⟨h, _⟩ := List.getElem?_eq_some.mp hi
                exact h
              have hmem : i ∈ order := (p1.mem_iff).mpr (List.mem_range.mpr hlt)
              obtain ⟨e, he, _⟩ := foldl_error_of_failing env cfg i path cause hi hd order
                { err := none, fileContentMap := [] } hmem
              have he2 : (runFetches env cfg order).err = some e := he
              rw [generateValuesYaml_gitRepo env order yd cfg hgit hcfg, he2] at hok
              simp at hok
          obtain ⟨e1, l1⟩ := runFetches_all_ok env cfg order hall p1
          obtain ⟨e2, l2⟩ := runFetches_all_ok env cfg order2 hall p2
          rw [generateValuesYaml_gitRepo env order yd cfg hgit hcfg,
            generateValuesYaml_gitRepo env order2 yd cfg hgit hcfg, e1, l1, e2, l2]
      · simp [generateValuesYaml, hfree, hgit]

theorem resolveDefaultValues_any_order (env : Env) (defaultValues : Option YamlData)
    (order order2 : List Nat) (h1 : ValidOrder defaultValues order)
    (h2 : ValidOrder defaultValues order2)
    (hok : (resolveDefaultValues env order defaultValues).err = none) :
    resolveDefaultValues env order2 defaultValues =
      resolveDefaultValues env order defaultValues := by
  cases defaultValues with
  | none => rfl
  | some yd =>
    by_cases hsrc : yd.YamlSource = ""
    · simp [resolveDefaultValues, hsrc]
    · simp only [resolveDefaultValues, ne_eq, hsrc, not_false_eq_true, if_true] at hok ⊢
      exact generateValuesYaml_any_order env (some yd) order order2 h1 h2 hok

/-- What a splice leaves, and what splicing the same change again makes of it: the list holds a
first entry of the service, filled from the change, and the second splice applies the override
once more on top of that entry's `ValuesYaml` and changes nothing else. -/
theorem spliceChartInfos_again (env : Env) (args : RenderChartArg) (helmChart : HelmChart)
    (l : List RenderChart) :
    ∃ pre e post,
      spliceChartInfos env args args.ServiceName helmChart l = pre ++ e :: post ∧
      (∀ c ∈ pre, c.ServiceName ≠ args.ServiceName) ∧
      e.ServiceName = args.ServiceName ∧ e.Source = args.YamlData ∧
      spliceChartInfos env args args.ServiceName helmChart (pre ++ e :: post) =
        pre ++ { e with ValuesYaml := env.applyOverride args.YamlData e.ValuesYaml } :: post := by
  have key : ∀ (pre post : List RenderChart) (c : RenderChart) (v : String),
      (∀ d ∈ pre, d.ServiceName ≠ args.ServiceName) →
      spliceChartInfos env args args.ServiceName helmChart
          (pre ++ args.FillRenderChartModel env c v :: post) =
        pre ++ { args.FillRenderChartModel env c v with
                 ValuesYaml :=
                   env.applyOverride args.YamlData
                     (args.FillRenderChartModel env c v).ValuesYaml } :: post := by
    intro pre post c v hpre
    simp only [spliceChartInfos,
      fillFirstMatch_split env args _ pre post (args.FillRenderChartModel env c v) hpre rfl]
    rfl
  by_cases hm : ∃ c ∈ l, c.ServiceName = args.ServiceName
  · obtain ⟨pre, target, post, hl, hpre, ht⟩ := exists_first_match args.ServiceName l hm
    refine ⟨pre, args.FillRenderChartModel env target target.ChartVersion, post, ?_, hpre, rfl,
      rfl, key pre post target target.ChartVersion hpre⟩
    simp only [spliceChartInfos, hl, fillFirstMatch_split env args _ pre post target hpre ht]
  · have hnone : ∀ c ∈ l, c.ServiceName ≠ args.ServiceName := by
      intro c hc hn
      exact hm ⟨c, hc, hn⟩
    refine ⟨l, args.FillRenderChartModel env
      { RenderChart.new with ValuesYaml := helmChart.ValuesYaml } helmChart.Version, [], ?_,
      hnone, rfl, rfl, key l [] _ helmChart.Version hnone⟩
    simp only [spliceChartInfos, fillFirstMatch_none env args _ l hnone]

theorem rewritten_eq_iff (pre post : List RenderChart) (e : RenderChart) (v : String) :
    pre ++ { e with ValuesYaml := v } :: post = pre ++ e :: post ↔ v = e.ValuesYaml := by
  obtain ⟨n, cv, vy, src⟩ := e
  simp

/-- After a successful write of `doc1`, a write of a document of the same name succeeds and gets
the next revision. -/
theorem persist_after_write (s : Store) (doc1 doc2 : RenderSet) (hn : doc1.Name.length ≠ 0)
    (hc : s.counterFault = none) (hi : s.insertFault = none) (hname : doc2.Name = doc1.Name) :
    (persist (s.afterWrite doc1) doc2).err = none ∧
    (persist (s.afterWrite doc1) doc2).store.written =
      some { doc2 with Revision := s.counter (revisionKey doc1) + 1 + 1 } := by
  have hn2 : doc2.Name.length ≠ 0 := by rw [hname]; exact hn
  rw [persist_of (s.afterWrite doc1) doc2 hn2 hc hi]
  refine ⟨rfl, ?_⟩
  simp [Store.afterWrite, Store.written, revisionKey, hname, Store.counter]

/-- Counterexample to C6 as stated: with an overlay by concatenation, a free-edit change of `svc1`
made twice on the sample store succeeds twice, and the entry of `svc1` holds the override text
once after the first call and twice after the second: the two `chartInfos` differ. -/
theorem createOrUpdate_twice_content_differs :
    (CreateOrUpdateChartValues concatOverlayEnv [] sampleStore "proj-x" "env-a"
      (sampleChange "svc1" (some (sampleFreeEdit "a: 2"))) "bob").err = none ∧
    (CreateOrUpdateChartValues concatOverlayEnv []
      (CreateOrUpdateChartValues concatOverlayEnv [] sampleStore "proj-x" "env-a"
        (sampleChange "svc1" (some (sampleFreeEdit "a: 2"))) "bob").store
      "proj-x" "env-a" (sampleChange "svc1" (some (sampleFreeEdit "a: 2"))) "bob").err = none ∧
    (CreateOrUpdateChartValues concatOverlayEnv [] sampleStore "proj-x" "env-a"
      (sampleChange "svc1" (some (sampleFreeEdit "a: 2"))) "bob").store.written.map
        (fun doc => doc.ChartInfos) =
      some [{ ServiceName := "svc1", ChartVersion := "0.9.0", ValuesYaml := "a: 1\na: 2",
              Source := some (sampleFreeEdit "a: 2") }] ∧
    (CreateOrUpdateChartValues concatOverlayEnv []
      (CreateOrUpdateChartValues concatOverlayEnv [] sampleStore "proj-x" "env-a"
        (sampleChange "svc1" (some (sampleFreeEdit "a: 2"))) "bob").store
      "proj-x" "env-a" (sampleChange "svc1" (some (sampleFreeEdit "a: 2")))
      "bob").store.written.map (fun doc => doc.ChartInfos) =
      some [{ ServiceName := "svc1", ChartVersion := "0.9.0", ValuesYaml := "a: 1\na: 2\na: 2",
              Source := some (sampleFreeEdit "a: 2") }] := by
  decide

/-- C6, amended: when a create-or-update call succeeds, the same call made again right after it,
with the same arguments, succeeds too (whatever the completion orders of the fetches of the two
calls), and the second document is the first one with `Revision` one higher and with the entry of
the target service rewritten: `DefaultValues`, the length of `chartInfos`, every other entry, and
that entry's service name, chart version and recorded override are the same, and its `ValuesYaml`
is the override applied once more on top of the `ValuesYaml` that the first call wrote.  The two
`chartInfos` are identical exactly when this second application changes nothing.  This holds for
`CreateOrUpdateChartValues` and for `CreateOrUpdateRenderset`. -/
theorem createOrUpdate_twice (env : Env) (s : Store) (productName envName userName : String) :
    (∀ (order order2 : List Nat) (args : RenderChartArg),
      ValidOrder args.YamlData order → ValidOrder args.YamlData order2 →
      (CreateOrUpdateChartValues env order s productName envName args userName).err = none →
      ∃ d1 d2 pre e post,
        (CreateOrUpdateChartValues env order s productName envName args
          userName).store.written = some d1 ∧
        (CreateOrUpdateChartValues env order2
          (CreateOrUpdateChartValues env order s productName envName args userName).store
          productName envName args userName).err = none ∧
        (CreateOrUpdateChartValues env order2
          (CreateOrUpdateChartValues env order s productName envName args userName).store
          productName envName args userName).store.written = some d2 ∧
        d2.Revision = d1.Revision + 1 ∧ d2.DefaultValues = d1.DefaultValues ∧
        d1.ChartInfos = pre ++ e :: post ∧
        (∀ c ∈ pre, c.ServiceName ≠ args.ServiceName) ∧
        e.ServiceName = args.ServiceName ∧
        e.Source = (generateValuesYaml env order args.YamlData).yamlData ∧
        d2.ChartInfos =
          pre ++ { e with ValuesYaml := env.applyOverride e.Source e.ValuesYaml } :: post ∧
        d2 = { d1 with Revision := d1.Revision + 1, ChartInfos := d2.ChartInfos } ∧
        (d2.ChartInfos = d1.ChartInfos ↔
          env.applyOverride e.Source e.ValuesYaml = e.ValuesYaml)) ∧
    (∀ (order order2 orderDefault orderDefault2 : List Nat) (args : RendersetArg)
      (rca : RenderChartArg), args.RenderChartArg = some rca →
      ValidOrder rca.YamlData order → ValidOrder rca.YamlData order2 →
      ValidOrder args.DefaultValues orderDefault → ValidOrder args.DefaultValues orderDefault2 →
      (CreateOrUpdateRenderset env order orderDefault s productName envName args
        userName).err = none →
      ∃ d1 d2 pre e post,
        (CreateOrUpdateRenderset env order orderDefault s productName envName args
          userName).store.written = some d1 ∧
        (CreateOrUpdateRenderset env order2 orderDefault2
          (CreateOrUpdateRenderset env order orderDefault s productName envName args
            userName).store
          productName envName args userName).err = none ∧
        (CreateOrUpdateRenderset env order2 orderDefault2
          (CreateOrUpdateRenderset env order orderDefault s productName envName args
            userName).store
          productName envName args userName).store.written = some d2 ∧
        d2.Revision = d1.Revision + 1 ∧ d2.DefaultValues = d1.DefaultValues ∧
        d1.ChartInfos = pre ++ e :: post ∧
        (∀ c ∈ pre, c.ServiceName ≠ rca.ServiceName) ∧
        e.ServiceName = rca.ServiceName ∧
        e.Source = (generateValuesYaml env order rca.YamlData).yamlData ∧
        d2.ChartInfos =
          pre ++ { e with ValuesYaml := env.applyOverride e.Source e.ValuesYaml } :: post ∧
        d2 = { d1 with Revision := d1.Revision + 1, ChartInfos := d2.ChartInfos } ∧
        (d2.ChartInfos = d1.ChartInfos ↔
          env.applyOverride e.Source e.ValuesYaml = e.ValuesYaml)) := by
  refine ⟨?_, ?_⟩
  · intro order order2 args v1 v2 hok
    obtain ⟨helmChart, cur, hh, hg, hc⟩ :=
      CreateOrUpdateChartValues_ok env order s productName envName userName args hok
    obtain ⟨hname, hff⟩ := currentRenderSet_name env s productName envName userName cur hc
    rw [CreateOrUpdateChartValues_of env order s productName envName userName args helmChart cur
      hh hg hc] at hok ⊢
    obtain ⟨hn, hcf, hif⟩ := persist_ok _ _ hok
    rw [persist_of _ _ hn hcf hif]
    have hgen := generateValuesYaml_any_order env args.YamlData order order2 v1 v2 hg
    have hg2 : (generateValuesYaml env order2 args.YamlData).err = none := by rw [hgen]; exact hg
    have hc2 := currentRenderSet_afterWrite env s productName envName userName
      { cur with
        ChartInfos :=
          spliceChartInfos env (resolvedArg env order args) args.ServiceName helmChart
            cur.ChartInfos } hname hff
    rw [CreateOrUpdateChartValues_of env order2 _ productName envName userName args helmChart _
      hh hg2 hc2]
    have hres : resolvedArg env order2 args = resolvedArg env order args := by
      simp only [resolvedArg, hgen]
    obtain ⟨p1, p2⟩ := persist_after_write s
      { cur with
        ChartInfos :=
          spliceChartInfos env (resolvedArg env order args) args.ServiceName helmChart
            cur.ChartInfos }
      { cur with
        Revision := s.counter (revisionKey cur) + 1,
        ChartInfos :=
          spliceChartInfos env (resolvedArg env order2 args) args.ServiceName helmChart
            (spliceChartInfos env (resolvedArg env order args) args.ServiceName helmChart
              cur.ChartInfos) } hn hcf hif rfl
    obtain ⟨pre, e, post, hs1, hpre, he, hsrc, hs2⟩ :=
      spliceChartInfos_again env (resolvedArg env order args) helmChart cur.ChartInfos
    have hsecond : spliceChartInfos env (resolvedArg env order2 args) args.ServiceName helmChart
        (spliceChartInfos env (resolvedArg env order args) args.ServiceName helmChart
          cur.ChartInfos) =
        pre ++ { e with ValuesYaml := env.applyOverride e.Source e.ValuesYaml } :: post := by
      rw [hres]
      have h := hs2
      rw [← hs1, ← hsrc] at h
      exact h
    refine ⟨_, _, pre, e, post, rfl, p1, p2, rfl, rfl, hs1, hpre, he, hsrc, hsecond, ?_, ?_⟩
    · simp only [hsecond]
    · simp only [hsecond]
      have h1 : spliceChartInfos env (resolvedArg env order args) args.ServiceName helmChart
          cur.ChartInfos = pre ++ e :: post := hs1
      simp only [Store.afterWrite, h1]
      exact rewritten_eq_iff pre post e _
  · intro order order2 orderDefault orderDefault2 args rca ha v1 v2 w1 w2 hok
    obtain ⟨rca2, helmChart, cur, ha2, hh, hg, hd, hc⟩ :=
      CreateOrUpdateRenderset_ok env order orderDefault s productName envName userName args hok
    rw [ha] at ha2
    injection ha2 with ha2
    subst ha2
    obtain ⟨hname, hff⟩ := currentRenderSet_name env s productName envName userName cur hc
    rw [CreateOrUpdateRenderset_of env order orderDefault s productName envName userName args rca
      helmChart cur ha hh hg hd hc] at hok ⊢
    obtain ⟨hn, hcf, hif⟩ := persist_ok _ _ hok
    rw [persist_of _ _ hn hcf hif]
    have hgen := generateValuesYaml_any_order env rca.YamlData order order2 v1 v2 hg
    have hg2 : (generateValuesYaml env order2 rca.YamlData).err = none := by rw [hgen]; exact hg
    have hdef := resolveDefaultValues_any_order env args.DefaultValues orderDefault orderDefault2
      w1 w2 hd
    have hd2 : (resolveDefaultValues env orderDefault2 args.DefaultValues).err = none := by
      rw [hdef]; exact hd
    have hc2 := currentRenderSet_afterWrite env s productName envName userName
      { cur with
        ChartInfos :=
          spliceChartInfos env (resolvedArg env order rca) rca.ServiceName helmChart
            cur.ChartInfos,
        DefaultValues :=
          writtenDefault (resolveDefaultValues env orderDefault args.DefaultValues) } hname hff
    rw [CreateOrUpdateRenderset_of env order2 orderDefault2 _ productName envName userName args
      rca helmChart _ ha hh hg2 hd2 hc2]
    have hres : resolvedArg env order2 rca = resolvedArg env order rca := by
      simp only [resolvedArg, hgen]
    obtain ⟨p1, p2⟩ := persist_after_write s
      { cur with
        ChartInfos :=
          spliceChartInfos env (resolvedArg env order rca) rca.ServiceName helmChart
            cur.ChartInfos,
        DefaultValues :=
          writtenDefault (resolveDefaultValues env orderDefault args.DefaultValues) }
      { cur with
        Revision := s.counter (revisionKey cur) + 1,
        ChartInfos :=
          spliceChartInfos env (resolvedArg env order2 rca) rca.ServiceName helmChart
            (spliceChartInfos env (resolvedArg env order rca) rca.ServiceName helmChart
              cur.ChartInfos),
        DefaultValues :=
          writtenDefault (resolveDefaultValues env orderDefault2 args.DefaultValues) }
      hn hcf hif rfl
    obtain ⟨pre, e, post, hs1, hpre, he, hsrc, hs2⟩ :=
      spliceChartInfos_again env (resolvedArg env order rca) helmChart cur.ChartInfos
    have hsecond : spliceChartInfos env (resolvedArg env order2 rca) rca.ServiceName helmChart
        (spliceChartInfos env (resolvedArg env order rca) rca.ServiceName helmChart
          cur.ChartInfos) =
        pre ++ { e with ValuesYaml := env.applyOverride e.Source e.ValuesYaml } :: post := by
      rw [hres]
      have h := hs2
      rw [← hs1, ← hsrc] at h
      exact h
    refine ⟨_, _, pre, e, post, rfl, p1, p2, rfl, ?_, hs1, hpre, he, hsrc, hsecond, ?_, ?_⟩
    · simp only [hdef]
    · simp only [hsecond, hdef]
    · simp only [hsecond]
      have h1 : spliceChartInfos env (resolvedArg env order rca) rca.ServiceName helmChart
          cur.ChartInfos = pre ++ e :: post := hs1
      simp only [Store.afterWrite, h1]
      exact rewritten_eq_iff pre post e _

/-- Witness of C6 as amended: a change of `svc2` from two repository files, made twice on the
sample store, the fetches completing in the order 1, 0 the first time and 0, 1 the second time.
The sample overlay leaves `ValuesYaml` as it is, so the two `chartInfos` are identical. -/
theorem createOrUpdate_twice_witness :
    (∃ d1 d2 pre e post,
      (CreateOrUpdateChartValues sampleEnv [1, 0] sampleStore "proj-x" "env-a"
        (sampleChange "svc2" (some (sampleGitSource ["a", "b"]))) "bob").store.written =
        some d1 ∧
      (CreateOrUpdateChartValues sampleEnv [0, 1]
        (CreateOrUpdateChartValues sampleEnv [1, 0] sampleStore "proj-x" "env-a"
          (sampleChange "svc2" (some (sampleGitSource ["a", "b"]))) "bob").store
        "proj-x" "env-a" (sampleChange "svc2" (some (sampleGitSource ["a", "b"]))) "bob").err =
        none ∧
      (CreateOrUpdateChartValues sampleEnv [0, 1]
        (CreateOrUpdateChartValues sampleEnv [1, 0] sampleStore "proj-x" "env-a"
          (sampleChange "svc2" (some (sampleGitSource ["a", "b"]))) "bob").store
        "proj-x" "env-a" (sampleChange "svc2" (some (sampleGitSource ["a", "b"])))
        "bob").store.written = some d2 ∧
      d2.Revision = d1.Revision + 1 ∧ d2.DefaultValues = d1.DefaultValues ∧
      d1.ChartInfos = pre ++ e :: post ∧
      (∀ c ∈ pre, c.ServiceName ≠ "svc2") ∧
      e.ServiceName = "svc2" ∧
      e.Source = (generateValuesYaml sampleEnv [1, 0]
        (some (sampleGitSource ["a", "b"]))).yamlData ∧
      d2.ChartInfos =
        pre ++ { e with ValuesYaml := sampleEnv.applyOverride e.Source e.ValuesYaml } :: post ∧
      d2 = { d1 with Revision := d1.Revision + 1, ChartInfos := d2.ChartInfos } ∧
      (d2.ChartInfos = d1.ChartInfos ↔
        sampleEnv.applyOverride e.Source e.ValuesYaml = e.ValuesYaml)) ∧
    (CreateOrUpdateChartValues sampleEnv [1, 0] sampleStore "proj-x" "env-a"
      (sampleChange "svc2" (some (sampleGitSource ["a", "b"]))) "bob").store.written.map
        (fun doc => (doc.Revision, doc.ChartInfos)) =
      some (4, [{ ServiceName := "svc1", ChartVersion := "0.9.0", ValuesYaml := "a: 1",
                  Source := none },
                { ServiceName := "svc2", ChartVersion := "1.0.0", ValuesYaml := "replicas: 1",
                  Source := some { sampleGitSource ["a", "b"] with
                                   ValuesYAML := "a: 1\nb: 1\n" } }]) ∧
    (CreateOrUpdateChartValues sampleEnv [0, 1]
      (CreateOrUpdateChartValues sampleEnv [1, 0] sampleStore "proj-x" "env-a"
        (sampleChange "svc2" (some (sampleGitSource ["a", "b"]))) "bob").store
      "proj-x" "env-a" (sampleChange "svc2" (some (sampleGitSource ["a", "b"])))
      "bob").store.written.map (fun doc => (doc.Revision, doc.ChartInfos)) =
      some (5, [{ ServiceName := "svc1", ChartVersion := "0.9.0", ValuesYaml := "a: 1",
                  Source := none },
                { ServiceName := "svc2", ChartVersion := "1.0.0", ValuesYaml := "replicas: 1",
                  Source := some { sampleGitSource ["a", "b"] with
                                   ValuesYAML := "a: 1\nb: 1\n" } }]) :=
  ⟨(createOrUpdate_twice sampleEnv sampleStore "proj-x" "env-a" "bob").1 [1, 0] [0, 1]
      (sampleChange "svc2" (some (sampleGitSource ["a", "b"])))
      (by
        intro yd cfg h1 _ h3
        injection h1 with h1
        subst h1
        injection h3 with h3
        subst h3
        decide)
      (by
        intro yd cfg h1 _ h3
        injection h1 with h1
        subst h1
        injection h3 with h3
        subst h3
        decide)
      (by decide),
   by decide, by decide⟩

end Renderset
